import Mathlib

/-!
# Verification of the ECoSS overlap-resolution and segmentation pipeline

Shallow embedding of the core of `src/pipeline/dataset.py` (class
`EcossDataset`): the interval table, the overlap parser, the superposition
classifier, the conflict resolver (`filter_overlapping`), the interval
splitter (`_divide_labels`) and the segmenter (`make_segments`,
`make_padding`, `zero_padding`).

Modelling conventions:
* times (`tmin`, `tmax`, overlap sub-ranges) are rationals; the Python code
  performs only comparisons and `max` on them, never arithmetic, so `ℚ`
  is a faithful stand-in for the float values;
* the pandas DataFrame is an association list `List (Nat × Row)` keeping
  the row order; `df.loc[i]` is a first-match lookup, `df.at[i, col] = v`
  updates every entry with index `i` (indices are unique in practice);
* `pd.concat` with a fresh index `np.max(df.index) + 1` is an append at
  the end with index `maxIdx + 1`;
* `self.df.iterrows()` iterates over the frame object captured when the
  generator is created; rebinding `self.df` (`pd.concat`) does not grow
  that iteration, so the scan of `filter_overlapping` runs exactly over
  the snapshot of the indices present at pass start;
* the `overlapping` column is only tested with `np.isnan`; it is modelled
  by a `Bool` (`true` = a non-null overlap description is present);
* signals are `List ℚ`; the white-noise padding draws are provided by an
  oracle argument since randomness has no pure counterpart.
-/

/-- The five geometric relations of `SuperpositionType` (dataset.py, end of
file). -/
inductive SuperpositionType where
  | NO_SUPERPOSITION
  | STARTS_BEFORE_AND_OVERLAPS
  | STARTS_AFTER_AND_OVERLAPS
  | CONTAINS
  | IS_CONTAINED
deriving DecidableEq, Repr

/-- One row of the annotation DataFrame, after `_extract_overlapping_info`
has materialised the `overlap_info_processed` column. -/
structure Row where
  parent_file : String
  tmin : ℚ
  tmax : ℚ
  final_source : String
  /-- `false` models `np.isnan(row["overlapping"])`. -/
  overlapping : Bool
  overlap_info_processed : List (Nat × ℚ × ℚ)
  to_delete : Bool
deriving DecidableEq, Inhabited, Repr

/-- The DataFrame: rows in order, each carrying its pandas index. -/
abbrev Table := List (Nat × Row)

/-- `df.loc[i]`: first row with index `i`. -/
def getRow (df : Table) (i : Nat) : Option Row :=
  (df.find? (fun e => e.1 == i)).map (fun e => e.2)

/-- `df.loc[i]` where the caller knows the row exists. -/
def getRowD (df : Table) (i : Nat) : Row :=
  (getRow df i).getD default

/-- `df.at[i, col] = v`: update the row(s) with index `i`. -/
def setRow (df : Table) (i : Nat) (f : Row → Row) : Table :=
  df.map (fun e => if e.1 == i then (e.1, f e.2) else e)

/-- `i in df.index`. -/
def liveIdx (df : Table) (i : Nat) : Bool :=
  df.any (fun e => e.1 == i)

/-- `np.max(df.index)` (with `0` on the empty frame, never used there). -/
def maxIdx (df : Table) : Nat :=
  df.foldl (fun m e => max m e.1) 0

/-- `EcossDataset._check_superposition` (dataset.py:730-754): the ordered
rule chain classifying two intervals. -/
def check_superposition (segment1 segment2 : ℚ × ℚ) : SuperpositionType :=
  let t_min1 := segment1.1
  let t_max1 := segment1.2
  let t_min2 := segment2.1
  let t_max2 := segment2.2
  if t_min1 ≤ t_min2 ∧ t_min2 ≤ t_max1 ∧ t_max1 < t_max2 then
    .STARTS_BEFORE_AND_OVERLAPS
  else if t_min2 ≤ t_min1 ∧ t_min1 ≤ t_max2 ∧ t_max2 < t_max1 then
    .STARTS_AFTER_AND_OVERLAPS
  else if t_min1 ≤ t_min2 ∧ t_max1 ≥ t_max2 then
    .CONTAINS
  else if t_min2 ≤ t_min1 ∧ t_max2 ≥ t_max1 then
    .IS_CONTAINED
  else
    .NO_SUPERPOSITION

/-- Python `list.sort()` on two-element lists compares lexicographically:
first by start, ties by end. -/
def lexLE (a b : ℚ × ℚ) : Prop :=
  a.1 < b.1 ∨ (a.1 = b.1 ∧ a.2 ≤ b.2)

instance : DecidableRel lexLE := fun a b => by
  unfold lexLE; infer_instance

/-- The sweep loop of `_divide_labels` (dataset.py:775-783), after the
excise list has been sorted: emit `[start, seg.1]` whenever the next
excise range starts strictly after the cursor, advance the cursor to
`max start seg.2`, and finally emit `[start, tmax]` if `start < tmax`. -/
def divideSweep (start : ℚ) (segs : List (ℚ × ℚ)) (tmax : ℚ) : List (ℚ × ℚ) :=
  match segs with
  | [] => if start < tmax then [(start, tmax)] else []
  | s :: rest =>
      (if s.1 > start then [(start, s.1)] else []) ++
        divideSweep (max start s.2) rest tmax

/-- `EcossDataset._divide_labels` (dataset.py:756-784): sort the excise
ranges (`segments.sort()`) and sweep. -/
def divide_labels (event : ℚ × ℚ) (segments : List (ℚ × ℚ)) : List (ℚ × ℚ) :=
  divideSweep event.1 (List.insertionSort lexLE segments) event.2

/-- `EcossDataset._handle_superposition` (dataset.py:786-810).  The second
assignment of the two partial-overlap branches reads the value written by
the first one, which is why it is written back unchanged.  Returns the
updated frame and `not_count` (`true` aborts the remaining refs of the
evaluated row). -/
def handle_superposition (df : Table) (eval_idx overlap_idx : Nat)
    (superpos : SuperpositionType) : Table × Bool :=
  match superpos with
  | .STARTS_BEFORE_AND_OVERLAPS =>
      let df1 := setRow df eval_idx
        (fun r => { r with tmax := (getRowD df overlap_idx).tmin })
      let df2 := setRow df1 overlap_idx
        (fun r => { r with tmin := (getRowD df1 eval_idx).tmax })
      (df2, false)
  | .STARTS_AFTER_AND_OVERLAPS =>
      let df1 := setRow df eval_idx
        (fun r => { r with tmin := (getRowD df overlap_idx).tmax })
      let df2 := setRow df1 overlap_idx
        (fun r => { r with tmax := (getRowD df1 eval_idx).tmin })
      (df2, false)
  | .IS_CONTAINED =>
      (setRow df eval_idx (fun r => { r with to_delete := true }), true)
  | _ => (df, false)

/-- The inner loop of `filter_overlapping` (dataset.py:206-220) over the
`overlap_info_processed` list of the evaluated row: collect the
different-class sub-ranges in `segments_to_delete`, handle same-class
superpositions in place, abort on `not_count`. -/
def processRefs (df : Table) (eval_idx : Nat) (refs : List (Nat × ℚ × ℚ))
    (segs : List (ℚ × ℚ)) : Table × List (ℚ × ℚ) × Bool :=
  match refs with
  | [] => (df, segs, false)
  | (overlap_idx, tmin, tmax) :: rest =>
      if ¬ liveIdx df overlap_idx then
        processRefs df eval_idx rest segs
      else if (getRowD df eval_idx).final_source ≠
          (getRowD df overlap_idx).final_source then
        processRefs df eval_idx rest (segs ++ [(tmin, tmax)])
      else
        let t_eval := ((getRowD df eval_idx).tmin, (getRowD df eval_idx).tmax)
        let t_overlap :=
          ((getRowD df overlap_idx).tmin, (getRowD df overlap_idx).tmax)
        let superpos := check_superposition t_eval t_overlap
        let hs := handle_superposition df eval_idx overlap_idx superpos
        if hs.2 then (hs.1, segs, true)
        else processRefs hs.1 eval_idx rest segs

/-- Append the surviving sub-intervals as fresh rows (dataset.py:225-231):
each new row is a copy of the evaluated row with narrowed bounds and index
`np.max(df.index) + 1`. -/
def appendPieces (df : Table) (e : Row) (pieces : List (ℚ × ℚ)) : Table :=
  pieces.foldl
    (fun acc p => acc ++ [(maxIdx acc + 1, { e with tmin := p.1, tmax := p.2 })])
    df

/-- One iteration of the scan of `filter_overlapping` (dataset.py:199-233)
for the evaluated index. -/
def processRow (df : Table) (eval_idx : Nat) : Table :=
  if ¬ liveIdx df eval_idx then df
  else if ¬ (getRowD df eval_idx).overlapping then df
  else
    let pr := processRefs df eval_idx
      (getRowD df eval_idx).overlap_info_processed []
    if pr.2.2 then pr.1
    else
      let e := getRowD pr.1 eval_idx
      let final_segments := divide_labels (e.tmin, e.tmax) pr.2.1
      let df2 := appendPieces pr.1 e final_segments
      setRow df2 eval_idx (fun r => { r with to_delete := true })

/-- The scan of `filter_overlapping`: `df["to_delete"] = False`, then fold
`processRow` over the snapshot of the indices present at pass start (the
`iterrows` generator of the original frame). -/
def filterScan (df0 : Table) : Table :=
  let dfInit := df0.map (fun e => (e.1, { e.2 with to_delete := false }))
  (dfInit.map (fun e => e.1)).foldl processRow dfInit

/-- The indices the scan evaluates: exactly the snapshot taken at pass
start (`iterrows` never yields rows appended through `pd.concat`, which
rebinds `self.df` to a new frame). -/
def filterVisited (df0 : Table) : List Nat :=
  df0.map (fun e => e.1)

/-- The indices of the rows appended during the scan: everything in the
final frame that was not present at pass start. -/
def filterAppended (df0 : Table) : List Nat :=
  ((filterScan df0).map (fun e => e.1)).filter
    (fun k => ¬ (df0.map (fun e => e.1)).contains k)

/-- `EcossDataset.filter_overlapping` (dataset.py:182-240) after
`_extract_overlapping_info`: run the scan, drop the rows marked
`to_delete`, drop the helper column and `reset_index(drop=True)`. -/
def filter_overlapping (df0 : Table) : Table :=
  (((filterScan df0).filter (fun e => ¬ e.2.to_delete)).map
    (fun e => e.2)).enum

/-- `EcossDataset.make_segments` (dataset.py:386-403): the slice
`signal[i*L:(i+1)*L]` for `i < len(signal) // L`. -/
def make_segments (segment_length : Nat) (signal : List ℚ) : List (List ℚ) :=
  (List.range (signal.length / segment_length)).map
    (fun i => (signal.drop (i * segment_length)).take segment_length)

/-- `EcossDataset.zero_padding` (dataset.py:432-446). -/
def zero_padding (signal : List ℚ) (delta_start delta_end : Nat) : List ℚ :=
  List.replicate delta_start 0 ++ signal ++ List.replicate delta_end 0

/-- `EcossDataset.make_padding` (dataset.py:406-429).  `whiteNoise n`
stands for `np.random.normal(size=n)`; an unknown `pad_mode` is
`exit(1)`, modelled by `none`.  Only called when
`len(signal) < segment_length`, so the natural subtraction agrees with
the Python `delta`. -/
def make_padding (pad_mode : String) (segment_length : Nat)
    (whiteNoise : Nat → List ℚ) (signal : List ℚ) : Option (List (List ℚ)) :=
  let delta := segment_length - signal.length
  let delta_start := delta / 2
  let delta_end := if delta % 2 = 0 then delta_start else delta / 2 + 1
  if pad_mode = "zeros" then
    some [zero_padding signal delta_start delta_end]
  else if pad_mode = "white_noise" then
    some [whiteNoise delta_start ++ signal ++ whiteNoise delta_end]
  else
    none

/-! ## The superposition classifier (claim C2) -/

/-- The ordered rule list of spec §4.2, written as the spec states it:
first match wins. -/
def superpositionRules (a b : ℚ × ℚ) : SuperpositionType :=
  if a.1 ≤ b.1 ∧ b.1 ≤ a.2 ∧ a.2 < b.2 then .STARTS_BEFORE_AND_OVERLAPS
  else if b.1 ≤ a.1 ∧ a.1 ≤ b.2 ∧ b.2 < a.2 then .STARTS_AFTER_AND_OVERLAPS
  else if a.1 ≤ b.1 ∧ a.2 ≥ b.2 then .CONTAINS
  else if b.1 ≤ a.1 ∧ b.2 ≥ a.2 then .IS_CONTAINED
  else .NO_SUPERPOSITION

/-- C2: `check_superposition` returns the first matching rule of the exact
ordered list of spec §4.2 (rule 1 `STARTS_BEFORE_AND_OVERLAPS`, rule 2
`STARTS_AFTER_AND_OVERLAPS`, rule 3 `CONTAINS`, rule 4 `IS_CONTAINED`,
otherwise `NO_SUPERPOSITION`), and for boundary-equal pairs the earlier
rule decides: identical intervals fall through rules 1-2 and classify as
`CONTAINS`. -/
theorem C2_check_superposition_first_match :
    (∀ a b : ℚ × ℚ, check_superposition a b = superpositionRules a b) ∧
    (∀ a b : ℚ × ℚ,
      ((a.1 ≤ b.1 ∧ b.1 ≤ a.2 ∧ a.2 < b.2) →
        check_superposition a b = .STARTS_BEFORE_AND_OVERLAPS) ∧
      (¬ (a.1 ≤ b.1 ∧ b.1 ≤ a.2 ∧ a.2 < b.2) →
        (b.1 ≤ a.1 ∧ a.1 ≤ b.2 ∧ b.2 < a.2) →
        check_superposition a b = .STARTS_AFTER_AND_OVERLAPS) ∧
      (¬ (a.1 ≤ b.1 ∧ b.1 ≤ a.2 ∧ a.2 < b.2) →
        ¬ (b.1 ≤ a.1 ∧ a.1 ≤ b.2 ∧ b.2 < a.2) →
        (a.1 ≤ b.1 ∧ a.2 ≥ b.2) →
        check_superposition a b = .CONTAINS) ∧
      (¬ (a.1 ≤ b.1 ∧ b.1 ≤ a.2 ∧ a.2 < b.2) →
        ¬ (b.1 ≤ a.1 ∧ a.1 ≤ b.2 ∧ b.2 < a.2) →
        ¬ (a.1 ≤ b.1 ∧ a.2 ≥ b.2) →
        (b.1 ≤ a.1 ∧ b.2 ≥ a.2) →
        check_superposition a b = .IS_CONTAINED) ∧
      (¬ (a.1 ≤ b.1 ∧ b.1 ≤ a.2 ∧ a.2 < b.2) →
        ¬ (b.1 ≤ a.1 ∧ a.1 ≤ b.2 ∧ b.2 < a.2) →
        ¬ (a.1 ≤ b.1 ∧ a.2 ≥ b.2) →
        ¬ (b.1 ≤ a.1 ∧ b.2 ≥ a.2) →
        check_superposition a b = .NO_SUPERPOSITION)) ∧
    (∀ x y : ℚ, check_superposition (x, y) (x, y) = .CONTAINS) := by
  refine ⟨fun a b => rfl, fun a b => ⟨?_, ?_, ?_, ?_, ?_⟩, fun x y => ?_⟩
  · intro h1
    simp only [check_superposition]
    rw [if_pos h1]
  · intro h1 h2
    simp only [check_superposition]
    rw [if_neg h1, if_pos h2]
  · intro h1 h2 h3
    simp only [check_superposition]
    rw [if_neg h1, if_neg h2, if_pos h3]
  · intro h1 h2 h3 h4
    simp only [check_superposition]
    rw [if_neg h1, if_neg h2, if_neg h3, if_pos h4]
  · intro h1 h2 h3 h4
    simp only [check_superposition]
    rw [if_neg h1, if_neg h2, if_neg h3, if_neg h4]
  · simp [check_superposition, lt_irrefl, le_refl]

/-- Witness for C2: `a = [0,5]`, `b = [3,8]` matches rule 1. -/
theorem C2_witness :
    check_superposition ((0 : ℚ), 5) (3, 8) = .STARTS_BEFORE_AND_OVERLAPS :=
  (C2_check_superposition_first_match.2.1 (0, 5) (3, 8)).1 (by norm_num)

/-! ## The interval splitter (claim C4) -/

/-- C4: `divide_labels` implements the sweep of spec §4.4: it sorts the
excise ranges by start (Python `list.sort`, lexicographic) and sweeps,
emitting `[cursor, excise.start]` when the excise starts strictly after
the cursor, advancing the cursor to `max cursor excise.end`, and emitting
a final `[cursor, event.max]` when `cursor < event.max`; in particular
`split([0,10], [[2,4],[6,8]]) = [[0,2],[4,6],[8,10]]` and
`split([0,10], [[2,8],[4,6]]) = [[0,2],[8,10]]`. -/
theorem C4_divide_labels_sweep :
    divide_labels (0, 10) [(2, 4), (6, 8)] = [(0, 2), (4, 6), (8, 10)] ∧
    divide_labels (0, 10) [(2, 8), (4, 6)] = [(0, 2), (8, 10)] ∧
    (∀ event : ℚ × ℚ, ∀ segments : List (ℚ × ℚ),
      divide_labels event segments =
        divideSweep event.1 (List.insertionSort lexLE segments) event.2) ∧
    (∀ start tmax : ℚ,
      divideSweep start [] tmax = if start < tmax then [(start, tmax)] else []) ∧
    (∀ (start tmax : ℚ) (s : ℚ × ℚ) (rest : List (ℚ × ℚ)),
      divideSweep start (s :: rest) tmax =
        (if s.1 > start then [(start, s.1)] else []) ++
          divideSweep (max start s.2) rest tmax) :=
  ⟨by decide, by decide, fun _ _ => rfl, fun _ _ => rfl, fun _ _ _ _ => rfl⟩

/-! ## Segmentation: padding (claim C8) -/

/-- C8: for a signal shorter than the target length, `make_padding` in
`zeros` mode produces exactly one segment of length exactly the target,
whose first `delta_start = (T-L) / 2` samples and last `delta_end`
samples (`delta_start` if `T-L` even, else `delta_start + 1`) are zero,
with the original signal unchanged in between. -/
theorem C8_zero_padding_segment (signal : List ℚ) (T : ℕ) (wn : Nat → List ℚ)
    (h : signal.length < T) :
    make_padding "zeros" T wn signal =
      some [zero_padding signal ((T - signal.length) / 2)
        (if (T - signal.length) % 2 = 0 then (T - signal.length) / 2
          else (T - signal.length) / 2 + 1)] ∧
    (zero_padding signal ((T - signal.length) / 2)
        (if (T - signal.length) % 2 = 0 then (T - signal.length) / 2
          else (T - signal.length) / 2 + 1)).length = T ∧
    (zero_padding signal ((T - signal.length) / 2)
        (if (T - signal.length) % 2 = 0 then (T - signal.length) / 2
          else (T - signal.length) / 2 + 1)).take ((T - signal.length) / 2) =
      List.replicate ((T - signal.length) / 2) 0 ∧
    ((zero_padding signal ((T - signal.length) / 2)
        (if (T - signal.length) % 2 = 0 then (T - signal.length) / 2
          else (T - signal.length) / 2 + 1)).drop
        ((T - signal.length) / 2)).take signal.length = signal ∧
    (zero_padding signal ((T - signal.length) / 2)
        (if (T - signal.length) % 2 = 0 then (T - signal.length) / 2
          else (T - signal.length) / 2 + 1)).drop
        ((T - signal.length) / 2 + signal.length) =
      List.replicate (if (T - signal.length) % 2 = 0 then (T - signal.length) / 2
        else (T - signal.length) / 2 + 1) 0 := by
  set ds := (T - signal.length) / 2 with hds
  set de := if (T - signal.length) % 2 = 0 then (T - signal.length) / 2
    else (T - signal.length) / 2 + 1 with hde
  have hdrop : (zero_padding signal ds de).drop ds = signal ++ List.replicate de 0 := by
    rw [zero_padding, List.append_assoc]
    exact List.drop_left' (List.length_replicate ds (0 : ℚ))
  refine ⟨rfl, ?_, ?_, ?_, ?_⟩
  · simp only [zero_padding, List.length_append, List.length_replicate]
    rw [hde]
    split <;> omega
  · rw [zero_padding, List.append_assoc]
    exact List.take_left' (List.length_replicate ds (0 : ℚ))
  · rw [hdrop]
    exact List.take_left' rfl
  · rw [← List.drop_drop signal.length ds, hdrop]
    exact List.drop_left' rfl

/-- Witness for C8: signal `[1,2,3]`, target length 6, `delta = 3`,
`delta_start = 1`, `delta_end = 2`. -/
theorem C8_witness :
    make_padding "zeros" 6 (fun _ => []) [1, 2, 3] = some [[0, 1, 2, 3, 0, 0]] :=
  ((C8_zero_padding_segment [1, 2, 3] 6 (fun _ => []) (by decide)).1).trans (by decide)

/-! ## Segmentation: truncation to multiples (claim C9) -/

/-- Concatenating the first `n` fixed-size slices of a signal rebuilds its
prefix of length `n * T`. -/
theorem flatten_slices (sig : List ℚ) (T : ℕ) :
    ∀ n, ((List.range n).map (fun i => (sig.drop (i * T)).take T)).flatten =
      sig.take (n * T) := by
  intro n
  induction n with
  | zero => simp
  | succ n ih =>
      rw [List.range_succ, List.map_append, List.flatten_append, ih]
      simp only [List.map_cons, List.map_nil, List.flatten_cons, List.flatten_nil,
        List.append_nil]
      rw [Nat.succ_mul, List.take_add]

/-- C9: for `L ≥ T` (and a positive target length, the Python code would
divide by zero otherwise), `make_segments` produces exactly `L / T`
segments, each of length exactly `T`, and concatenating them in order
reproduces the prefix of the signal of length `T * (L / T)`; the
remainder is dropped. -/
theorem C9_make_segments_count (signal : List ℚ) (T : ℕ) (hT : 0 < T)
    (hL : T ≤ signal.length) :
    (make_segments T signal).length = signal.length / T ∧
    (∀ s ∈ make_segments T signal, s.length = T) ∧
    (make_segments T signal).flatten = signal.take (T * (signal.length / T)) := by
  refine ⟨by simp [make_segments], ?_, ?_⟩
  · intro s hs
    simp only [make_segments, List.mem_map, List.mem_range] at hs
    obtain ⟨i, hi, rfl⟩ := hs
    have h1 : (i + 1) * T ≤ signal.length :=
      (Nat.le_div_iff_mul_le hT).mp (Nat.succ_le_of_lt hi)
    rw [Nat.succ_mul] at h1
    simp only [List.length_take, List.length_drop]
    omega
  · rw [Nat.mul_comm]
    exact flatten_slices signal T (signal.length / T)

/-- Witness for C9: signal of length 5, target 2: two segments, remainder
dropped. -/
theorem C9_witness :
    (make_segments 2 [1, 2, 3, 4, 5]).length = 2 ∧
    (make_segments 2 ([1, 2, 3, 4, 5] : List ℚ)).flatten = [1, 2, 3, 4] := by
  have h := C9_make_segments_count [1, 2, 3, 4, 5] 2 (by decide) (by decide)
  exact ⟨h.1.trans (by decide), h.2.2.trans (by decide)⟩

/-! ## Different-class exclusion scenario (claim C5)

Two same-file intervals `A = [0,10]` labelled `x` and `B = [5,8]`
labelled `y`, each of whose overlap refs records the mutual overlap
`[5,8]` (the annotation table records overlap references on both
partners).  The resolver splits `A` into `[0,5]` and `[8,10]`; but when
`B` is evaluated, the different-class sub-range `[5,8]` is excised from
`B = [5,8]` itself, which leaves no surviving sub-interval, so `B` is
marked for deletion and removed — it is not left unchanged. -/

/-- Interval `A = [0,10]`, label `x`, overlap ref to row 1 at `[5,8]`. -/
def rowA : Row :=
  { parent_file := "f", tmin := 0, tmax := 10, final_source := "x",
    overlapping := true, overlap_info_processed := [(1, 5, 8)],
    to_delete := false }

/-- Interval `B = [5,8]`, label `y`, overlap ref to row 0 at `[5,8]`. -/
def rowB : Row :=
  { parent_file := "f", tmin := 5, tmax := 8, final_source := "y",
    overlapping := true, overlap_info_processed := [(0, 5, 8)],
    to_delete := false }

/-- The two-row table of the different-class exclusion scenario. -/
def tableC5 : Table := [(0, rowA), (1, rowB)]

/-- C5, counterexample: `B` is NOT left unchanged by the resolution —
no row labelled `y` survives at all. -/
theorem C5_counterexample :
    (filter_overlapping tableC5).filter (fun e => e.2.final_source == "y") = [] := by
  decide

/-- C5, amended: resolving the table yields `A` split into `[0,5]` and
`[8,10]`, both labelled `x`; `B`, whose whole extent is the
different-class overlap, is excised to nothing and deleted. -/
theorem C5_amended_resolution :
    filter_overlapping tableC5 =
      [(0, { rowA with tmin := 0, tmax := 5 }),
       (1, { rowA with tmin := 8, tmax := 10 })] := by
  decide

/-! ## Are newly split rows visited by the scan? (claim C3)

`self.df.iterrows()` yields rows of the frame object that `self.df`
referenced when the loop started; `self.df = pd.concat(...)` rebinds the
attribute to a new frame and does not extend that iteration.  The scan
therefore visits exactly the indices present at pass start, never the
rows appended during the pass. -/

/-- Interval `[0,10]` labelled `x` with a different-class overlap ref,
used to force a split. -/
def rowC3A : Row :=
  { parent_file := "g", tmin := 0, tmax := 10, final_source := "x",
    overlapping := true, overlap_info_processed := [(1, 2, 6)],
    to_delete := false }

/-- Interval `[2,6]` labelled `y` with a null overlap field. -/
def rowC3B : Row :=
  { parent_file := "g", tmin := 2, tmax := 6, final_source := "y",
    overlapping := false, overlap_info_processed := [],
    to_delete := false }

/-- A table whose resolution appends two split rows during the pass. -/
def tableC3 : Table := [(0, rowC3A), (1, rowC3B)]

/-- C3, counterexample: resolving `tableC3` appends the split rows with
fresh indices 2 and 3, and neither of them is visited by the scan (the
scan visits exactly the snapshot `[0, 1]`). -/
theorem C3_counterexample :
    filterAppended tableC3 = [2, 3] ∧
    filterVisited tableC3 = [0, 1] ∧
    2 ∉ filterVisited tableC3 ∧ 3 ∉ filterVisited tableC3 := by
  decide

/-- C3, amended: a row appended during the pass of `filter_overlapping`
is never visited by the scan; the scan iterates only over the snapshot of
the indices present at pass start. -/
theorem C3_amended_appended_not_visited (df0 : Table) (k : Nat)
    (h : k ∈ filterAppended df0) : k ∉ filterVisited df0 := by
  simp only [filterAppended, List.mem_filter] at h
  simpa [filterVisited] using h.2

/-- Witness for the amended C3 at the concrete table. -/
theorem C3_amended_witness : (2 : Nat) ∉ filterVisited tableC3 :=
  C3_amended_appended_not_visited tableC3 2 (by decide)

/-! ## The overlap parser (claim C10)

`_parse_overlapping_field` works on Python strings; it is embedded over
`List Char` (`String.data`) with explicit splitting helpers.  Python
exceptions (`IndexError` out of a short group or an empty digit-token
list, `ValueError` out of `float`) abort the parse of the row; they are
modelled by `none`, threaded through `mapM`. -/

/-- `str.split(sep)` for a one-character separator: empty tokens are
kept, the empty string yields `[""]`. -/
def splitOnChar (sep : Char) : List Char → List (List Char)
  | [] => [[]]
  | c :: rest =>
      if c = sep then [] :: splitOnChar sep rest
      else
        match splitOnChar sep rest with
        | [] => [[c]]
        | t :: ts => (c :: t) :: ts

/-- `str.split()` with no argument: split on blanks and drop empty
tokens (the annotation fields separate words with blanks only). -/
def splitBlank (l : List Char) : List (List Char) :=
  (splitOnChar ' ' l).filter (fun t => ¬ t.isEmpty)

/-- `str.isdigit()` on the ASCII tokens of the annotation files. -/
def pyIsDigit (l : List Char) : Bool :=
  !l.isEmpty && l.all (fun c => c.isDigit)

/-- `int(s)` on an all-digit string. -/
def natOfDigits (l : List Char) : Nat :=
  l.foldl (fun a c => a * 10 + (c.toNat - 48)) 0

/-- `float(tok)` on the plain decimal literals of the annotation files:
optional surrounding blanks, optional sign, digits with at most one
decimal point and at least one digit; anything else raises `ValueError`,
modelled by `none`. -/
def parseFloat (s : List Char) : Option ℚ :=
  let t := ((s.dropWhile (fun c => c = ' ')).reverse.dropWhile
    (fun c => c = ' ')).reverse
  let sb : ℚ × List Char :=
    match t with
    | '-' :: rest => (-1, rest)
    | '+' :: rest => (1, rest)
    | _ => (1, t)
  let intPart := sb.2.takeWhile (fun c => c ≠ '.')
  let rest := sb.2.dropWhile (fun c => c ≠ '.')
  match rest with
  | [] =>
      if intPart ≠ [] ∧ intPart.all (fun c => c.isDigit) then
        some (sb.1 * natOfDigits intPart)
      else none
  | _ :: frac =>
      if (intPart ≠ [] ∨ frac ≠ []) ∧ intPart.all (fun c => c.isDigit) ∧
          frac.all (fun c => c.isDigit) then
        some (sb.1 * ((natOfDigits intPart : ℚ) + natOfDigits frac / 10 ^ frac.length))
      else none

/-- One triple group of `_parse_overlapping_field` (dataset.py:723-727):
`index = [int(s) for s in x[0].split() if s.isdigit()][0]` (an
`IndexError` when no all-digit token exists),
`start = float(x[1].split(':')[-1])`, `stop = float(x[2].split(':')[-1])`;
a group with fewer than three tokens raises `IndexError` on `x[1]` or
`x[2]`. -/
def parseGroup (x : List (List Char)) : Option (Nat × ℚ × ℚ) := do
  match x with
  | [a, b, c] =>
      let index ← (((splitBlank a).filter pyIsDigit).head?).map natOfDigits
      let start ← parseFloat ((splitOnChar ':' b).getLastD [])
      let stop ← parseFloat ((splitOnChar ':' c).getLastD [])
      some (index, start, stop)
  | _ => none

/-- `[overlapping_str[i:i+3] for i in range(0, len, 3)]`. -/
def groupsOf3 : List (List Char) → List (List (List Char))
  | [] => []
  | a :: b :: c :: rest => [a, b, c] :: groupsOf3 rest
  | l => [l]

/-- `EcossDataset._parse_overlapping_field` (dataset.py:703-729): split on
commas, drop the trailing empty token (`[:-1]`), group into triples and
parse each one; the first exception aborts the whole row (`none`). -/
def parse_overlapping_field (overlapping_str : String) :
    Option (List (Nat × ℚ × ℚ)) :=
  (groupsOf3 ((splitOnChar ',' overlapping_str.data).dropLast)).mapM parseGroup

/-- `EcossDataset._extract_overlapping_info` (dataset.py:630-644) for one
row: a null `overlapping` column yields the empty list without looking at
`overlap_info`; otherwise the raw string is parsed. -/
def extract_overlapping_info_row (overlappingIsNA : Bool)
    (overlap_info : String) : Option (List (Nat × ℚ × ℚ)) :=
  if overlappingIsNA then some [] else parse_overlapping_field overlap_info

/-- A malformed triple in the sense of the spec: wrong token count in the
group, no all-digit token to read the index from, or a start/stop token
from which no number can be parsed. -/
def malformedGroup (x : List (List Char)) : Prop :=
  x.length ≠ 3 ∨
    ∃ a b c, x = [a, b, c] ∧
      (((splitBlank a).filter pyIsDigit) = [] ∨
        parseFloat ((splitOnChar ':' b).getLastD []) = none ∨
        parseFloat ((splitOnChar ':' c).getLastD []) = none)

/-- In the `Option` monad, one failing element makes the whole `mapM`
fail. -/
theorem mapM_eq_none_of_mem {α β : Type} (f : α → Option β) :
    ∀ (l : List α) (a : α), a ∈ l → f a = none → l.mapM f = none := by
  intro l
  induction l with
  | nil => intro a ha _; cases ha
  | cons x xs ih =>
      intro a ha hf
      rw [List.mapM_cons]
      rcases List.mem_cons.mp ha with h | h
      · subst h
        rw [hf]
        rfl
      · cases hfx : f x with
        | none => rfl
        | some y =>
            simp only [ih a h hf]
            rfl

/-- A group that is not a triple fails to parse. -/
theorem parseGroup_wrong_length (x : List (List Char)) (h : x.length ≠ 3) :
    parseGroup x = none := by
  match x with
  | [] => rfl
  | [_] => rfl
  | [_, _] => rfl
  | [_, _, _] => simp at h
  | _ :: _ :: _ :: _ :: _ => rfl

/-- A malformed group fails to parse. -/
theorem parseGroup_malformed (x : List (List Char)) (h : malformedGroup x) :
    parseGroup x = none := by
  rcases h with h | ⟨a, b, c, rfl, h⟩
  · exact parseGroup_wrong_length x h
  · rcases h with h | h | h
    · simp [parseGroup, h]
    · rw [List.getLastD_eq_getLast?] at h
      cases hidx : (((splitBlank a).filter pyIsDigit).head?) with
      | none => simp [parseGroup, hidx]
      | some v => simp [parseGroup, hidx, h]
    · rw [List.getLastD_eq_getLast?] at h
      cases hidx : (((splitBlank a).filter pyIsDigit).head?) with
      | none => simp [parseGroup, hidx]
      | some v => simp [parseGroup, hidx, h]

/-- C10: a null/absent raw overlap field yields the empty sequence, and
for every non-null input any malformed triple — wrong token count in a
group, or a token from which no number can be parsed — makes the parse of
the whole row fail (`none`) instead of being silently skipped. -/
theorem C10_parser_error_handling :
    (∀ info : String, extract_overlapping_info_row true info = some []) ∧
    (∀ s : String, ∀ x ∈ groupsOf3 ((splitOnChar ',' s.data).dropLast),
      malformedGroup x → parse_overlapping_field s = none) := by
  refine ⟨fun info => rfl, fun s x hx hmal => ?_⟩
  exact mapM_eq_none_of_mem parseGroup _ x hx (parseGroup_malformed x hmal)

/-- Witness for C10: a row whose `end` token carries no parsable number is
a fatal parse error for the row. -/
theorem C10_witness :
    parse_overlapping_field "7 Ship,start:2.5,end:zz," = none :=
  C10_parser_error_handling.2 "7 Ship,start:2.5,end:zz,"
    ["7 Ship".data, "start:2.5".data, "end:zz".data] (by decide)
    (Or.inr ⟨"7 Ship".data, "start:2.5".data, "end:zz".data, rfl,
      Or.inr (Or.inr (by decide))⟩)

/-! ## Table infrastructure lemmas -/

/-- Overlap of two `[t_min, t_max)` ranges with nonempty interior. -/
def strictOverlap (a b : ℚ × ℚ) : Prop :=
  max a.1 b.1 < min a.2 b.2

theorem getRow_cons_self {x : Nat × Row} {xs : Table} {i : Nat} (h : x.1 = i) :
    getRow (x :: xs) i = some x.2 := by
  rw [getRow, List.find?_cons_of_pos _ (by simpa using h)]
  rfl

theorem getRow_cons_ne {x : Nat × Row} {xs : Table} {i : Nat} (h : x.1 ≠ i) :
    getRow (x :: xs) i = getRow xs i := by
  rw [getRow, List.find?_cons_of_neg _ (by simpa using h), getRow]

theorem setRow_cons {x : Nat × Row} {xs : Table} {i : Nat} {f : Row → Row} :
    setRow (x :: xs) i f =
      (if x.1 = i then (x.1, f x.2) else x) :: setRow xs i f := by
  simp only [setRow, List.map_cons, beq_iff_eq]

theorem getRowD_eq {df : Table} {i : Nat} {r : Row} (h : getRow df i = some r) :
    getRowD df i = r := by
  simp [getRowD, h]

theorem mem_of_getRow {df : Table} {i : Nat} {r : Row}
    (h : getRow df i = some r) : (i, r) ∈ df := by
  induction df with
  | nil => simp [getRow] at h
  | cons x xs ih =>
      by_cases hx : x.1 = i
      · rw [getRow_cons_self hx] at h
        have hxe : x = (i, r) := by
          rcases x with ⟨x1, x2⟩
          simp only at hx
          simp only [Option.some.injEq] at h
          rw [hx, h]
        rw [hxe]
        exact List.mem_cons_self _ _
      · rw [getRow_cons_ne hx] at h
        exact List.mem_cons_of_mem _ (ih h)

theorem getRow_eq_of_mem {df : Table} (hn : (df.map Prod.fst).Nodup)
    {i : Nat} {r : Row} (h : (i, r) ∈ df) : getRow df i = some r := by
  induction df with
  | nil => cases h
  | cons x xs ih =>
      simp only [List.map_cons, List.nodup_cons] at hn
      rcases List.mem_cons.mp h with h | h
      · rw [← h, getRow_cons_self rfl]
      · have hne : x.1 ≠ i := by
          intro hcon
          exact hn.1 (hcon ▸ (List.mem_map.mpr ⟨(i, r), h, rfl⟩))
        rw [getRow_cons_ne hne]
        exact ih hn.2 h

theorem getRow_isSome_iff {df : Table} {i : Nat} :
    (getRow df i).isSome = true ↔ i ∈ df.map Prod.fst := by
  induction df with
  | nil => simp [getRow]
  | cons x xs ih =>
      by_cases hx : x.1 = i
      · rw [getRow_cons_self hx]
        simp [hx]
      · rw [getRow_cons_ne hx]
        simp only [List.map_cons, List.mem_cons, ih]
        exact (or_iff_right (fun hc => hx hc.symm)).symm

theorem liveIdx_eq_contains (df : Table) (i : Nat) :
    liveIdx df i = true ↔ i ∈ df.map Prod.fst := by
  simp [liveIdx, List.any_eq_true, beq_iff_eq, List.mem_map]

theorem liveIdx_eq_isSome (df : Table) (i : Nat) :
    liveIdx df i = (getRow df i).isSome := by
  by_cases h : i ∈ df.map Prod.fst
  · rw [(liveIdx_eq_contains df i).mpr h, getRow_isSome_iff.mpr h]
  · have h1 : ¬ liveIdx df i = true := fun hc => h ((liveIdx_eq_contains df i).mp hc)
    have h2 : ¬ (getRow df i).isSome = true := fun hc => h (getRow_isSome_iff.mp hc)
    rw [Bool.not_eq_true] at h1 h2
    rw [h1, h2]

theorem setRow_map_fst (df : Table) (i : Nat) (f : Row → Row) :
    (setRow df i f).map Prod.fst = df.map Prod.fst := by
  induction df with
  | nil => rfl
  | cons x xs ih =>
      rw [setRow_cons, List.map_cons, List.map_cons, ih]
      by_cases hx : x.1 = i
      · rw [if_pos hx]
      · rw [if_neg hx]

theorem getRow_setRow_self {df : Table} {i : Nat} (f : Row → Row) :
    getRow (setRow df i f) i = (getRow df i).map f := by
  induction df with
  | nil => rfl
  | cons x xs ih =>
      rw [setRow_cons]
      by_cases hx : x.1 = i
      · rw [if_pos hx, getRow_cons_self hx,
          @getRow_cons_self (x.1, f x.2) (setRow xs i f) i hx]
        rfl
      · rw [if_neg hx, getRow_cons_ne hx, getRow_cons_ne hx, ih]

theorem getRow_setRow_ne {df : Table} {i k : Nat} (f : Row → Row)
    (h : k ≠ i) : getRow (setRow df i f) k = getRow df k := by
  induction df with
  | nil => rfl
  | cons x xs ih =>
      rw [setRow_cons]
      by_cases hx : x.1 = i
      · have hxk : x.1 ≠ k := fun hc => h (by rw [← hc, hx])
        rw [if_pos hx, getRow_cons_ne (by simpa using hxk), getRow_cons_ne hxk, ih]
      · by_cases hk : x.1 = k
        · rw [if_neg hx, getRow_cons_self hk, getRow_cons_self hk]
        · rw [if_neg hx, getRow_cons_ne hk, getRow_cons_ne hk, ih]

theorem mem_setRow_ne {df : Table} {i k : Nat} {r : Row} (f : Row → Row)
    (h : k ≠ i) : (k, r) ∈ setRow df i f ↔ (k, r) ∈ df := by
  induction df with
  | nil => simp [setRow]
  | cons x xs ih =>
      rw [setRow_cons, List.mem_cons, List.mem_cons, ih]
      by_cases hx : x.1 = i
      · rw [if_pos hx]
        constructor
        · rintro (hc | hc)
          · exact absurd ((congrArg Prod.fst hc).trans hx) h
          · exact Or.inr hc
        · rintro (hc | hc)
          · exact absurd ((congrArg Prod.fst hc).trans hx) h
          · exact Or.inr hc
      · rw [if_neg hx]

theorem setRow_congr_id {df : Table} {i : Nat} {f : Row → Row}
    (h : ∀ r, (i, r) ∈ df → f r = r) : setRow df i f = df := by
  induction df with
  | nil => rfl
  | cons x xs ih =>
      rw [setRow_cons, ih (fun r hr => h r (List.mem_cons_of_mem _ hr))]
      by_cases hx : x.1 = i
      · have hx2 : f x.2 = x.2 := h x.2 (by rw [← hx]; exact List.mem_cons_self _ _)
        rw [if_pos hx, hx2]
      · rw [if_neg hx]

/-! ## Geometry of the classifier rules -/

theorem check_superposition_self (x y : ℚ) :
    check_superposition (x, y) (x, y) = .CONTAINS := by
  simp [check_superposition, lt_irrefl, le_refl]

theorem check_eq_SB {a b : ℚ × ℚ}
    (h : check_superposition a b = .STARTS_BEFORE_AND_OVERLAPS) :
    a.1 ≤ b.1 ∧ b.1 ≤ a.2 ∧ a.2 < b.2 := by
  by_cases h1 : a.1 ≤ b.1 ∧ b.1 ≤ a.2 ∧ a.2 < b.2
  · exact h1
  exfalso
  simp only [check_superposition, if_neg h1] at h
  by_cases h2 : b.1 ≤ a.1 ∧ a.1 ≤ b.2 ∧ b.2 < a.2
  · rw [if_pos h2] at h
    cases h
  rw [if_neg h2] at h
  by_cases h3 : a.1 ≤ b.1 ∧ a.2 ≥ b.2
  · rw [if_pos h3] at h
    cases h
  rw [if_neg h3] at h
  by_cases h4 : b.1 ≤ a.1 ∧ b.2 ≥ a.2
  · rw [if_pos h4] at h
    cases h
  rw [if_neg h4] at h
  cases h

theorem check_eq_SA {a b : ℚ × ℚ}
    (h : check_superposition a b = .STARTS_AFTER_AND_OVERLAPS) :
    b.1 ≤ a.1 ∧ a.1 ≤ b.2 ∧ b.2 < a.2 := by
  by_cases h2 : b.1 ≤ a.1 ∧ a.1 ≤ b.2 ∧ b.2 < a.2
  · exact h2
  exfalso
  simp only [check_superposition] at h
  by_cases h1 : a.1 ≤ b.1 ∧ b.1 ≤ a.2 ∧ a.2 < b.2
  · rw [if_pos h1] at h
    cases h
  rw [if_neg h1, if_neg h2] at h
  by_cases h3 : a.1 ≤ b.1 ∧ a.2 ≥ b.2
  · rw [if_pos h3] at h
    cases h
  rw [if_neg h3] at h
  by_cases h4 : b.1 ≤ a.1 ∧ b.2 ≥ a.2
  · rw [if_pos h4] at h
    cases h
  rw [if_neg h4] at h
  cases h

/-! ## The two partial-overlap branches mutate only the evaluated row -/

theorem handle_SB {df : Table} {i o : Nat} {e ob : Row}
    (hn : (df.map Prod.fst).Nodup) (hi : getRow df i = some e)
    (ho : getRow df o = some ob) (hio : i ≠ o) :
    handle_superposition df i o .STARTS_BEFORE_AND_OVERLAPS =
      (setRow df i (fun r => { r with tmax := ob.tmin }), false) := by
  simp only [handle_superposition]
  rw [getRowD_eq ho]
  have h1 : getRow (setRow df i (fun r => { r with tmax := ob.tmin })) i =
      some { e with tmax := ob.tmin } := by
    rw [getRow_setRow_self, hi]
    rfl
  rw [getRowD_eq h1]
  congr 1
  apply setRow_congr_id
  intro r hr
  have hmem : (o, r) ∈ df := (mem_setRow_ne _ (fun hc => hio hc.symm)).mp hr
  have hro : r = ob := by
    have h2 := getRow_eq_of_mem hn hmem
    rw [ho] at h2
    exact ((Option.some.injEq _ _).mp h2).symm
  rw [hro]

theorem handle_SA {df : Table} {i o : Nat} {e ob : Row}
    (hn : (df.map Prod.fst).Nodup) (hi : getRow df i = some e)
    (ho : getRow df o = some ob) (hio : i ≠ o) :
    handle_superposition df i o .STARTS_AFTER_AND_OVERLAPS =
      (setRow df i (fun r => { r with tmin := ob.tmax }), false) := by
  simp only [handle_superposition]
  rw [getRowD_eq ho]
  have h1 : getRow (setRow df i (fun r => { r with tmin := ob.tmax })) i =
      some { e with tmin := ob.tmax } := by
    rw [getRow_setRow_self, hi]
    rfl
  rw [getRowD_eq h1]
  congr 1
  apply setRow_congr_id
  intro r hr
  have hmem : (o, r) ∈ df := (mem_setRow_ne _ (fun hc => hio hc.symm)).mp hr
  have hro : r = ob := by
    have h2 := getRow_eq_of_mem hn hmem
    rw [ho] at h2
    exact ((Option.some.injEq _ _).mp h2).symm
  rw [hro]

/-! ## The lexicographic sort of the excise list -/

instance : IsTotal (ℚ × ℚ) lexLE :=
  ⟨fun a b => by
    unfold lexLE
    rcases lt_trichotomy a.1 b.1 with h | h | h
    · exact Or.inl (Or.inl h)
    · rcases le_total a.2 b.2 with h2 | h2
      · exact Or.inl (Or.inr ⟨h, h2⟩)
      · exact Or.inr (Or.inr ⟨h.symm, h2⟩)
    · exact Or.inr (Or.inl h)⟩

instance : IsTrans (ℚ × ℚ) lexLE :=
  ⟨fun a b c hab hbc => by
    unfold lexLE at *
    rcases hab with h1 | ⟨h1, h1a⟩
    · rcases hbc with h2 | ⟨h2, h2a⟩
      · exact Or.inl (h1.trans h2)
      · exact Or.inl (h2 ▸ h1)
    · rcases hbc with h2 | ⟨h2, h2a⟩
      · exact Or.inl (h1 ▸ h2)
      · exact Or.inr ⟨h1.trans h2, h1a.trans h2a⟩⟩

theorem sorted_fst_insertionSort (segs : List (ℚ × ℚ)) :
    (List.insertionSort lexLE segs).Pairwise (fun a b => a.1 ≤ b.1) :=
  (List.sorted_insertionSort lexLE segs).imp
    (fun hab => by
      rcases hab with h | ⟨h, _⟩
      · exact le_of_lt h
      · exact le_of_eq h)

/-! ## Properties of the sweep -/

theorem divideSweep_lt :
    ∀ (segs : List (ℚ × ℚ)) (start tmax : ℚ) (p : ℚ × ℚ),
      p ∈ divideSweep start segs tmax → p.1 < p.2 := by
  intro segs
  induction segs with
  | nil =>
      intro start tmax p hp
      simp only [divideSweep] at hp
      by_cases h : start < tmax
      · rw [if_pos h] at hp
        rw [List.mem_singleton.mp hp]
        exact h
      · rw [if_neg h] at hp
        cases hp
  | cons s rest ih =>
      intro start tmax p hp
      simp only [divideSweep, List.mem_append] at hp
      rcases hp with hp | hp
      · by_cases h : s.1 > start
        · rw [if_pos h] at hp
          rw [List.mem_singleton.mp hp]
          exact h
        · rw [if_neg h] at hp
          cases hp
      · exact ih _ _ _ hp

theorem divideSweep_start_ge :
    ∀ (segs : List (ℚ × ℚ)) (start tmax : ℚ) (p : ℚ × ℚ),
      p ∈ divideSweep start segs tmax → start ≤ p.1 := by
  intro segs
  induction segs with
  | nil =>
      intro start tmax p hp
      simp only [divideSweep] at hp
      by_cases h : start < tmax
      · rw [if_pos h] at hp
        rw [List.mem_singleton.mp hp]
      · rw [if_neg h] at hp
        cases hp
  | cons s rest ih =>
      intro start tmax p hp
      simp only [divideSweep, List.mem_append] at hp
      rcases hp with hp | hp
      · by_cases h : s.1 > start
        · rw [if_pos h] at hp
          rw [List.mem_singleton.mp hp]
        · rw [if_neg h] at hp
          cases hp
      · exact (le_max_left start s.2).trans (ih _ _ _ hp)

theorem divideSweep_end_le :
    ∀ (segs : List (ℚ × ℚ)) (start tmax B : ℚ), tmax ≤ B →
      (∀ x ∈ segs, x.1 ≤ B) →
      ∀ p ∈ divideSweep start segs tmax, p.2 ≤ B := by
  intro segs
  induction segs with
  | nil =>
      intro start tmax B hB _ p hp
      simp only [divideSweep] at hp
      by_cases h : start < tmax
      · rw [if_pos h] at hp
        rw [List.mem_singleton.mp hp]
        exact hB
      · rw [if_neg h] at hp
        cases hp
  | cons s rest ih =>
      intro start tmax B hB hx p hp
      simp only [divideSweep, List.mem_append] at hp
      rcases hp with hp | hp
      · by_cases h : s.1 > start
        · rw [if_pos h] at hp
          rw [List.mem_singleton.mp hp]
          exact hx s (List.mem_cons_self _ _)
        · rw [if_neg h] at hp
          cases hp
      · exact ih _ _ _ hB (fun x hxr => hx x (List.mem_cons_of_mem _ hxr)) p hp

theorem divideSweep_avoid :
    ∀ (segs : List (ℚ × ℚ)) (start tmax : ℚ),
      segs.Pairwise (fun a b => a.1 ≤ b.1) →
      ∀ p ∈ divideSweep start segs tmax, ∀ x ∈ segs,
        p.2 ≤ x.1 ∨ x.2 ≤ p.1 := by
  intro segs
  induction segs with
  | nil => intro start tmax _ p _ x hx; cases hx
  | cons s rest ih =>
      intro start tmax hsort p hp x hx
      rw [List.pairwise_cons] at hsort
      simp only [divideSweep, List.mem_append] at hp
      rcases hp with hp | hp
      · by_cases h : s.1 > start
        · rw [if_pos h] at hp
          rw [List.mem_singleton.mp hp]
          rcases List.mem_cons.mp hx with hx | hx
          · rw [hx]
            exact Or.inl le_rfl
          · exact Or.inl (hsort.1 x hx)
        · rw [if_neg h] at hp
          cases hp
      · rcases List.mem_cons.mp hx with hx | hx
        · rw [hx]
          exact Or.inr ((le_max_right start s.2).trans
            (divideSweep_start_ge rest (max start s.2) tmax p hp))
        · exact ih _ _ hsort.2 p hp x hx

/-! ## Appending the split pieces -/

theorem foldl_max_le_init :
    ∀ (l : Table) (acc : Nat), acc ≤ l.foldl (fun m e => max m e.1) acc := by
  intro l
  induction l with
  | nil => intro acc; exact le_rfl
  | cons x xs ih =>
      intro acc
      exact (le_max_left acc x.1).trans (ih (max acc x.1))

theorem maxIdx_ge {df : Table} {k : Nat} {r : Row} (h : (k, r) ∈ df) :
    k ≤ maxIdx df := by
  have aux : ∀ (l : Table) (acc : Nat), (k, r) ∈ l →
      k ≤ l.foldl (fun m e => max m e.1) acc := by
    intro l
    induction l with
    | nil => intro acc hc; cases hc
    | cons x xs ih =>
        intro acc hc
        rw [List.foldl_cons]
        rcases List.mem_cons.mp hc with h1 | h1
        · have hk : k ≤ max acc x.1 := by
            rw [← h1]
            exact le_max_right acc k
          exact hk.trans (foldl_max_le_init xs (max acc x.1))
        · exact ih (max acc x.1) h1
  exact aux df 0 h

theorem maxIdx_append_single (df : Table) (y : Nat × Row) :
    maxIdx (df ++ [y]) = max (maxIdx df) y.1 := by
  simp [maxIdx, List.foldl_append]

theorem getRow_append_left {df l : Table} {k : Nat} {r : Row}
    (h : getRow df k = some r) : getRow (df ++ l) k = some r := by
  induction df with
  | nil => simp [getRow] at h
  | cons x xs ih =>
      by_cases hx : x.1 = k
      · rw [getRow_cons_self hx] at h
        rw [List.cons_append, getRow_cons_self hx]
        exact h
      · rw [getRow_cons_ne hx] at h
        rw [List.cons_append, getRow_cons_ne hx]
        exact ih h

theorem appendPieces_spec :
    ∀ (pieces : List (ℚ × ℚ)) (df : Table) (e : Row),
      (df.map Prod.fst).Nodup →
      (((appendPieces df e pieces).map Prod.fst).Nodup ∧
        (∀ x, x ∈ df → x ∈ appendPieces df e pieces) ∧
        (∀ k r, getRow df k = some r →
          getRow (appendPieces df e pieces) k = some r) ∧
        (∀ x, x ∈ appendPieces df e pieces → x ∈ df ∨
          (maxIdx df < x.1 ∧ ∃ p, p ∈ pieces ∧
            x.2 = { e with tmin := p.1, tmax := p.2 }))) := by
  intro pieces
  induction pieces with
  | nil =>
      intro df e hn
      exact ⟨hn, fun x hx => hx, fun k r h => h, fun x hx => Or.inl hx⟩
  | cons p ps ih =>
      intro df e hn
      have hfresh : maxIdx df + 1 ∉ df.map Prod.fst := by
        intro hc
        rcases List.mem_map.mp hc with ⟨y, hy, hyk⟩
        have : y.1 ≤ maxIdx df := maxIdx_ge (by rw [show y = (y.1, y.2) from rfl] at hy; exact hy)
        omega
      have hstep : appendPieces df e (p :: ps) =
          appendPieces (df ++ [(maxIdx df + 1, { e with tmin := p.1, tmax := p.2 })]) e ps := rfl
      have hn2 : ((df ++ [(maxIdx df + 1, { e with tmin := p.1, tmax := p.2 })]).map
          Prod.fst).Nodup := by
        rw [List.map_append]
        rw [List.nodup_append]
        refine ⟨hn, List.nodup_singleton _, ?_⟩
        intro a ha hb
        simp only [List.map_cons, List.map_nil, List.mem_singleton] at hb
        rw [hb] at ha
        exact hfresh ha
      obtain ⟨c1, c2, c3, c4⟩ :=
        ih (df ++ [(maxIdx df + 1, { e with tmin := p.1, tmax := p.2 })]) e hn2
      rw [hstep]
      refine ⟨c1, ?_, ?_, ?_⟩
      · intro x hx
        exact c2 x (List.mem_append_left _ hx)
      · intro k r h
        exact c3 k r (getRow_append_left h)
      · intro x hx
        rcases c4 x hx with hx1 | hx1
        · rcases List.mem_append.mp hx1 with hx2 | hx2
          · exact Or.inl hx2
          · right
            rw [List.mem_singleton.mp hx2]
            exact ⟨by omega, p, List.mem_cons_self _ _, rfl⟩
        · right
          refine ⟨?_, ?_⟩
          · have : maxIdx df ≤ maxIdx (df ++ [(maxIdx df + 1,
                { e with tmin := p.1, tmax := p.2 })]) := by
              rw [maxIdx_append_single]
              exact le_max_left _ _
            omega
          · rcases hx1.2 with ⟨q, hq, hqe⟩
            exact ⟨q, List.mem_cons_of_mem _ hq, hqe⟩

/-! ## The inner refs loop: full specification

One induction establishes everything the invariants need about
`processRefs`: the index set is unchanged, every row other than the
evaluated one is untouched (the write-back to the overlapping row is the
value it already holds), the evaluated row keeps its identity fields and
only shrinks, `not_count` is exactly the deletion mark, the collected
excise ranges are exactly ranges of refs (soundness) and contain every
different-class ref whose target row is live (completeness). -/

theorem processRefs_spec (i : Nat) :
    ∀ (refs : List (Nat × ℚ × ℚ)) (df : Table) (segs : List (ℚ × ℚ)) (e : Row),
      (df.map Prod.fst).Nodup → getRow df i = some e →
      ∃ e2 : Row,
        (processRefs df i refs segs).1.map Prod.fst = df.map Prod.fst ∧
        getRow (processRefs df i refs segs).1 i = some e2 ∧
        e2.parent_file = e.parent_file ∧
        e2.final_source = e.final_source ∧
        e2.overlapping = e.overlapping ∧
        e2.overlap_info_processed = e.overlap_info_processed ∧
        e2.to_delete = ((processRefs df i refs segs).2.2 || e.to_delete) ∧
        e.tmin ≤ e2.tmin ∧ e2.tmax ≤ e.tmax ∧
        (∀ k, k ≠ i → getRow (processRefs df i refs segs).1 k = getRow df k) ∧
        (∀ x ∈ segs, x ∈ (processRefs df i refs segs).2.1) ∧
        (∀ x ∈ (processRefs df i refs segs).2.1,
          x ∈ segs ∨ ∃ j, (j, x.1, x.2) ∈ refs) ∧
        ((processRefs df i refs segs).2.2 = false →
          ∀ j s t, (j, s, t) ∈ refs → ∀ rj, getRow df j = some rj →
            rj.final_source ≠ e.final_source →
            (s, t) ∈ (processRefs df i refs segs).2.1) := by
  intro refs
  induction refs with
  | nil =>
      intro df segs e hn hi
      refine ⟨e, rfl, hi, rfl, rfl, rfl, rfl, by simp [processRefs], le_rfl, le_rfl,
        fun k _ => rfl, fun x hx => hx, fun x hx => Or.inl hx, ?_⟩
      intro _ j s t hmem
      cases hmem
  | cons hd rest ih =>
      obtain ⟨o, s0, t0⟩ := hd
      intro df segs e hn hi
      by_cases hlive : liveIdx df o = true
      case neg =>
        have hC : processRefs df i ((o, s0, t0) :: rest) segs =
            processRefs df i rest segs := by
          simp only [processRefs]
          rw [if_pos hlive]
        rw [hC]
        obtain ⟨e2, c1, c2, c3, c4, c5, c6, c7, c8, c9, c10, c11, c12, c13⟩ :=
          ih df segs e hn hi
        refine ⟨e2, c1, c2, c3, c4, c5, c6, c7, c8, c9, c10, c11, ?_, ?_⟩
        · intro x hx
          rcases c12 x hx with h | ⟨j, hj⟩
          · exact Or.inl h
          · exact Or.inr ⟨j, List.mem_cons_of_mem _ hj⟩
        · intro hnc j s t hmem rj hrj hne
          rcases List.mem_cons.mp hmem with heq | hmem2
          · exfalso
            simp only [Prod.mk.injEq] at heq
            obtain ⟨rfl, rfl, rfl⟩ := heq
            apply hlive
            rw [liveIdx_eq_isSome, hrj]
            rfl
          · exact c13 hnc j s t hmem2 rj hrj hne
      case pos =>
        by_cases hlab : (getRowD df i).final_source ≠ (getRowD df o).final_source
        · have hC : processRefs df i ((o, s0, t0) :: rest) segs =
              processRefs df i rest (segs ++ [(s0, t0)]) := by
            simp only [processRefs]
            rw [if_neg (not_not_intro hlive), if_pos hlab]
          rw [hC]
          obtain ⟨e2, c1, c2, c3, c4, c5, c6, c7, c8, c9, c10, c11, c12, c13⟩ :=
            ih df (segs ++ [(s0, t0)]) e hn hi
          refine ⟨e2, c1, c2, c3, c4, c5, c6, c7, c8, c9, c10, ?_, ?_, ?_⟩
          · intro x hx
            exact c11 x (List.mem_append_left _ hx)
          · intro x hx
            rcases c12 x hx with h | ⟨j, hj⟩
            · rcases List.mem_append.mp h with h2 | h2
              · exact Or.inl h2
              · right
                refine ⟨o, ?_⟩
                rw [List.mem_singleton.mp h2]
                exact List.mem_cons_self _ _
            · exact Or.inr ⟨j, List.mem_cons_of_mem _ hj⟩
          · intro hnc j s t hmem rj hrj hne
            rcases List.mem_cons.mp hmem with heq | hmem2
            · simp only [Prod.mk.injEq] at heq
              obtain ⟨rfl, rfl, rfl⟩ := heq
              exact c11 (s, t) (List.mem_append_right _ (List.mem_singleton.mpr rfl))
            · exact c13 hnc j s t hmem2 rj hrj hne
        · have hos : ∃ ob, getRow df o = some ob :=
            Option.isSome_iff_exists.mp ((liveIdx_eq_isSome df o) ▸ hlive)
          obtain ⟨ob, ho⟩ := hos
          have hlabeq : e.final_source = ob.final_source := by
            rw [getRowD_eq hi, getRowD_eq ho] at hlab
            exact not_not.mp hlab
          cases hsp : check_superposition (e.tmin, e.tmax) (ob.tmin, ob.tmax) with
          | CONTAINS =>
              have hC : processRefs df i ((o, s0, t0) :: rest) segs =
                  processRefs df i rest segs := by
                simp only [processRefs]
                rw [if_neg (not_not_intro hlive), if_neg hlab, getRowD_eq hi,
                  getRowD_eq ho, hsp]
                rfl
              rw [hC]
              obtain ⟨e2, c1, c2, c3, c4, c5, c6, c7, c8, c9, c10, c11, c12, c13⟩ :=
                ih df segs e hn hi
              refine ⟨e2, c1, c2, c3, c4, c5, c6, c7, c8, c9, c10, c11, ?_, ?_⟩
              · intro x hx
                rcases c12 x hx with h | ⟨j, hj⟩
                · exact Or.inl h
                · exact Or.inr ⟨j, List.mem_cons_of_mem _ hj⟩
              · intro hnc j s t hmem rj hrj hne
                rcases List.mem_cons.mp hmem with heq | hmem2
                · exfalso
                  simp only [Prod.mk.injEq] at heq
                  obtain ⟨rfl, rfl, rfl⟩ := heq
                  rw [hrj] at ho
                  obtain rfl := (Option.some.injEq _ _).mp ho
                  exact hne hlabeq.symm
                · exact c13 hnc j s t hmem2 rj hrj hne
          | NO_SUPERPOSITION =>
              have hC : processRefs df i ((o, s0, t0) :: rest) segs =
                  processRefs df i rest segs := by
                simp only [processRefs]
                rw [if_neg (not_not_intro hlive), if_neg hlab, getRowD_eq hi,
                  getRowD_eq ho, hsp]
                rfl
              rw [hC]
              obtain ⟨e2, c1, c2, c3, c4, c5, c6, c7, c8, c9, c10, c11, c12, c13⟩ :=
                ih df segs e hn hi
              refine ⟨e2, c1, c2, c3, c4, c5, c6, c7, c8, c9, c10, c11, ?_, ?_⟩
              · intro x hx
                rcases c12 x hx with h | ⟨j, hj⟩
                · exact Or.inl h
                · exact Or.inr ⟨j, List.mem_cons_of_mem _ hj⟩
              · intro hnc j s t hmem rj hrj hne
                rcases List.mem_cons.mp hmem with heq | hmem2
                · exfalso
                  simp only [Prod.mk.injEq] at heq
                  obtain ⟨rfl, rfl, rfl⟩ := heq
                  rw [hrj] at ho
                  obtain rfl := (Option.some.injEq _ _).mp ho
                  exact hne hlabeq.symm
                · exact c13 hnc j s t hmem2 rj hrj hne
          | IS_CONTAINED =>
              have hC : processRefs df i ((o, s0, t0) :: rest) segs =
                  (setRow df i (fun r => { r with to_delete := true }), segs, true) := by
                simp only [processRefs]
                rw [if_neg (not_not_intro hlive), if_neg hlab, getRowD_eq hi,
                  getRowD_eq ho, hsp]
                rfl
              rw [hC]
              refine ⟨{ e with to_delete := true }, by rw [setRow_map_fst], ?_,
                rfl, rfl, rfl, rfl, by simp, le_rfl, le_rfl, ?_, fun x hx => hx,
                fun x hx => Or.inl hx, ?_⟩
              · rw [getRow_setRow_self, hi]
                rfl
              · intro k hk
                exact getRow_setRow_ne (fun r => { r with to_delete := true }) hk
              · intro hnc
                cases hnc
          | STARTS_BEFORE_AND_OVERLAPS =>
              have hio : i ≠ o := by
                intro hc
                subst hc
                rw [hi] at ho
                obtain rfl := (Option.some.injEq _ _).mp ho
                rw [check_superposition_self] at hsp
                cases hsp
              have hgeo := check_eq_SB hsp
              have hC : processRefs df i ((o, s0, t0) :: rest) segs =
                  processRefs (setRow df i (fun r => { r with tmax := ob.tmin }))
                    i rest segs := by
                simp only [processRefs]
                rw [if_neg (not_not_intro hlive), if_neg hlab, getRowD_eq hi,
                  getRowD_eq ho, hsp, handle_SB hn hi ho hio]
                rfl
              rw [hC]
              have hn1 : ((setRow df i (fun r => { r with tmax := ob.tmin })).map
                  Prod.fst).Nodup := by
                rw [setRow_map_fst]
                exact hn
              have hi1 : getRow (setRow df i (fun r => { r with tmax := ob.tmin })) i =
                  some { e with tmax := ob.tmin } := by
                rw [getRow_setRow_self, hi]
                rfl
              obtain ⟨e2, c1, c2, c3, c4, c5, c6, c7, c8, c9, c10, c11, c12, c13⟩ :=
                ih (setRow df i (fun r => { r with tmax := ob.tmin })) segs
                  { e with tmax := ob.tmin } hn1 hi1
              refine ⟨e2, ?_, c2, c3, c4, c5, c6, c7, c8, ?_, ?_, c11, ?_, ?_⟩
              · rw [c1, setRow_map_fst]
              · exact c9.trans hgeo.2.1
              · intro k hk
                rw [c10 k hk]
                exact getRow_setRow_ne _ hk
              · intro x hx
                rcases c12 x hx with h | ⟨j, hj⟩
                · exact Or.inl h
                · exact Or.inr ⟨j, List.mem_cons_of_mem _ hj⟩
              · intro hnc j s t hmem rj hrj hne
                rcases List.mem_cons.mp hmem with heq | hmem2
                · exfalso
                  simp only [Prod.mk.injEq] at heq
                  obtain ⟨rfl, rfl, rfl⟩ := heq
                  rw [hrj] at ho
                  obtain rfl := (Option.some.injEq _ _).mp ho
                  exact hne hlabeq.symm
                · by_cases hji : j = i
                  · exfalso
                    subst hji
                    rw [hrj] at hi
                    obtain rfl := (Option.some.injEq _ _).mp hi
                    exact hne rfl
                  · refine c13 hnc j s t hmem2 rj ?_ hne
                    rw [getRow_setRow_ne _ hji]
                    exact hrj
          | STARTS_AFTER_AND_OVERLAPS =>
              have hio : i ≠ o := by
                intro hc
                subst hc
                rw [hi] at ho
                obtain rfl := (Option.some.injEq _ _).mp ho
                rw [check_superposition_self] at hsp
                cases hsp
              have hgeo := check_eq_SA hsp
              have hC : processRefs df i ((o, s0, t0) :: rest) segs =
                  processRefs (setRow df i (fun r => { r with tmin := ob.tmax }))
                    i rest segs := by
                simp only [processRefs]
                rw [if_neg (not_not_intro hlive), if_neg hlab, getRowD_eq hi,
                  getRowD_eq ho, hsp, handle_SA hn hi ho hio]
                rfl
              rw [hC]
              have hn1 : ((setRow df i (fun r => { r with tmin := ob.tmax })).map
                  Prod.fst).Nodup := by
                rw [setRow_map_fst]
                exact hn
              have hi1 : getRow (setRow df i (fun r => { r with tmin := ob.tmax })) i =
                  some { e with tmin := ob.tmax } := by
                rw [getRow_setRow_self, hi]
                rfl
              obtain ⟨e2, c1, c2, c3, c4, c5, c6, c7, c8, c9, c10, c11, c12, c13⟩ :=
                ih (setRow df i (fun r => { r with tmin := ob.tmax })) segs
                  { e with tmin := ob.tmax } hn1 hi1
              refine ⟨e2, ?_, c2, c3, c4, c5, c6, c7, ?_, c9, ?_, c11, ?_, ?_⟩
              · rw [c1, setRow_map_fst]
              · exact hgeo.2.1.trans c8
              · intro k hk
                rw [c10 k hk]
                exact getRow_setRow_ne _ hk
              · intro x hx
                rcases c12 x hx with h | ⟨j, hj⟩
                · exact Or.inl h
                · exact Or.inr ⟨j, List.mem_cons_of_mem _ hj⟩
              · intro hnc j s t hmem rj hrj hne
                rcases List.mem_cons.mp hmem with heq | hmem2
                · exfalso
                  simp only [Prod.mk.injEq] at heq
                  obtain ⟨rfl, rfl, rfl⟩ := heq
                  rw [hrj] at ho
                  obtain rfl := (Option.some.injEq _ _).mp ho
                  exact hne hlabeq.symm
                · by_cases hji : j = i
                  · exfalso
                    subst hji
                    rw [hrj] at hi
                    obtain rfl := (Option.some.injEq _ _).mp hi
                    exact hne rfl
                  · refine c13 hnc j s t hmem2 rj ?_ hne
                    rw [getRow_setRow_ne _ hji]
                    exact hrj

/-! ## The scan invariant

`P` is the frame at pass start (all `to_delete` reset to `false`).  During
the scan: indices stay unique; every initial row keeps its identity
fields and, while unmarked, its original bounds; every row with a fresh
index is an unmarked split piece: strictly ordered, tied to a source row
whose parent and label it copies, within the source's original bounds
(provided every recorded excise range starts within its row), and clear
of every different-class sub-range recorded in the source's refs. -/

def ScanInv (P T : Table) : Prop :=
  (T.map Prod.fst).Nodup ∧
  (∀ i r0, (i, r0) ∈ P → ∃ r, (i, r) ∈ T ∧
    r.parent_file = r0.parent_file ∧ r.final_source = r0.final_source ∧
    r.overlapping = r0.overlapping ∧
    r.overlap_info_processed = r0.overlap_info_processed ∧
    (r.to_delete = false → r.tmin = r0.tmin ∧ r.tmax = r0.tmax)) ∧
  (∀ k r, (k, r) ∈ T → k ∉ P.map Prod.fst →
    r.to_delete = false ∧ r.tmin < r.tmax ∧
    ∃ m r0, (m, r0) ∈ P ∧ r.parent_file = r0.parent_file ∧
      r.final_source = r0.final_source ∧
      ((∀ i2 q0, (i2, q0) ∈ P → ∀ j s t,
          (j, s, t) ∈ q0.overlap_info_processed → s ≤ q0.tmax) →
        r0.tmin ≤ r.tmin ∧ r.tmax ≤ r0.tmax) ∧
      (∀ j s t, (j, s, t) ∈ r0.overlap_info_processed →
        ∀ rj0, (j, rj0) ∈ P → rj0.final_source ≠ r0.final_source →
        r.tmax ≤ s ∨ t ≤ r.tmin))

theorem processRow_step (P T : Table) (i : Nat)
    (hnP : (P.map Prod.fst).Nodup)
    (hInv : ScanInv P T) (hiP : i ∈ P.map Prod.fst)
    (hfresh : ∀ r, (i, r) ∈ T → r.to_delete = false) :
    ScanInv P (processRow T i) ∧
    (∀ r0, (i, r0) ∈ P → r0.overlapping = true →
      ∃ r, getRow (processRow T i) i = some r ∧ r.to_delete = true) ∧
    (∀ k rk, k ≠ i → getRow T k = some rk →
      getRow (processRow T i) k = some rk) := by
  obtain ⟨hnT, hInit, hNew⟩ := hInv
  obtain ⟨e0, he0⟩ : ∃ r0, (i, r0) ∈ P := by
    rcases List.mem_map.mp hiP with ⟨y, hy, hyi⟩
    exact ⟨y.2, by rw [show (i, y.2) = y from Prod.ext hyi.symm rfl]; exact hy⟩
  obtain ⟨ei, hmemT, hf1, hf2, hf3, hf4, hf5⟩ := hInit i e0 he0
  have hgi : getRow T i = some ei := getRow_eq_of_mem hnT hmemT
  have hlive : liveIdx T i = true := by
    rw [liveIdx_eq_isSome, hgi]
    rfl
  have hdel : ei.to_delete = false := hfresh ei hmemT
  have hbounds := hf5 hdel
  have hP_unique : ∀ r0, (i, r0) ∈ P → r0 = e0 := by
    intro r0 hr0
    have h1 := getRow_eq_of_mem hnP hr0
    have h2 := getRow_eq_of_mem hnP he0
    rw [h2] at h1
    exact ((Option.some.injEq _ _).mp h1).symm
  by_cases hov : ei.overlapping = true
  case neg =>
    have hEq : processRow T i = T := by
      simp only [processRow]
      rw [getRowD_eq hgi, if_neg (not_not_intro hlive), if_pos hov]
    rw [hEq]
    refine ⟨⟨hnT, hInit, hNew⟩, ?_, fun k rk _ h => h⟩
    intro r0 hr0 hovc
    exfalso
    rw [hP_unique r0 hr0] at hovc
    rw [← hf3] at hovc
    exact hov hovc
  case pos =>
    obtain ⟨e2, c1, c2, c3, c4, c5, c6, c7, c8, c9, c10, c11, c12, c13⟩ :=
      processRefs_spec i ei.overlap_info_processed T [] ei hnT hgi
    have hnPR : ((processRefs T i ei.overlap_info_processed []).1.map
        Prod.fst).Nodup := by
      rw [c1]
      exact hnT
    by_cases hnc : (processRefs T i ei.overlap_info_processed []).2.2 = true
    case pos =>
      have hEq : processRow T i = (processRefs T i ei.overlap_info_processed []).1 := by
        simp only [processRow]
        rw [getRowD_eq hgi, if_neg (not_not_intro hlive),
          if_neg (not_not_intro hov), if_pos hnc]
      rw [hEq]
      have hback : ∀ k rk, k ≠ i →
          ((k, rk) ∈ (processRefs T i ei.overlap_info_processed []).1 ↔ (k, rk) ∈ T) := by
        intro k rk hk
        constructor
        · intro hm
          exact mem_of_getRow ((c10 k hk) ▸ getRow_eq_of_mem hnPR hm)
        · intro hm
          exact mem_of_getRow ((c10 k hk).symm ▸ getRow_eq_of_mem hnT hm)
      refine ⟨⟨hnPR, ?_, ?_⟩, ?_, ?_⟩
      · intro j r0 hj
        by_cases hji : j = i
        · subst hji
          obtain rfl := hP_unique r0 hj
          refine ⟨e2, mem_of_getRow c2, ?_, ?_, ?_, ?_, ?_⟩
          · rw [c3, hf1]
          · rw [c4, hf2]
          · rw [c5, hf3]
          · rw [c6, hf4]
          · intro hfd
            exfalso
            rw [c7, hnc, hdel] at hfd
            cases hfd
        · obtain ⟨r, hrT, q1, q2, q3, q4, q5⟩ := hInit j r0 hj
          exact ⟨r, (hback j r hji).mpr hrT, q1, q2, q3, q4, q5⟩
      · intro k r hk hkP
        have hki : k ≠ i := fun hc => hkP (hc ▸ hiP)
        exact hNew k r ((hback k r hki).mp hk) hkP
      · intro r0 hr0 _
        refine ⟨e2, c2, ?_⟩
        rw [c7, hnc, hdel]
        rfl
      · intro k rk hk hgk
        rw [c10 k hk]
        exact hgk
    case neg =>
      have hnc2 : (processRefs T i ei.overlap_info_processed []).2.2 = false := by
        simpa using hnc
      have he2del : e2.to_delete = false := by
        rw [c7, hnc2, hdel]
        rfl
      have hEq : processRow T i =
          setRow (appendPieces (processRefs T i ei.overlap_info_processed []).1 e2
            (divide_labels (e2.tmin, e2.tmax)
              (processRefs T i ei.overlap_info_processed []).2.1)) i
            (fun r => { r with to_delete := true }) := by
        simp only [processRow]
        rw [getRowD_eq hgi, if_neg (not_not_intro hlive),
          if_neg (not_not_intro hov), if_neg hnc, getRowD_eq c2]
      obtain ⟨a1, a2, a3, a4⟩ := appendPieces_spec
        (divide_labels (e2.tmin, e2.tmax)
          (processRefs T i ei.overlap_info_processed []).2.1)
        (processRefs T i ei.overlap_info_processed []).1 e2 hnPR
      rw [hEq]
      have hback : ∀ k rk, k ≠ i →
          ((k, rk) ∈ (processRefs T i ei.overlap_info_processed []).1 ↔ (k, rk) ∈ T) := by
        intro k rk hk
        constructor
        · intro hm
          exact mem_of_getRow ((c10 k hk) ▸ getRow_eq_of_mem hnPR hm)
        · intro hm
          exact mem_of_getRow ((c10 k hk).symm ▸ getRow_eq_of_mem hnT hm)
      have hgT2 : ∀ k rk, k ≠ i → getRow T k = some rk →
          getRow (setRow (appendPieces (processRefs T i ei.overlap_info_processed []).1 e2
            (divide_labels (e2.tmin, e2.tmax)
              (processRefs T i ei.overlap_info_processed []).2.1)) i
            (fun r => { r with to_delete := true })) k = some rk := by
        intro k rk hk hgk
        rw [getRow_setRow_ne _ hk]
        exact a3 k rk ((c10 k hk).symm ▸ hgk)
      have hpiece_src : ∀ p ∈ divide_labels (e2.tmin, e2.tmax)
          (processRefs T i ei.overlap_info_processed []).2.1,
          p.1 < p.2 ∧ e2.tmin ≤ p.1 ∧
          (∀ j s t, (j, s, t) ∈ e0.overlap_info_processed →
            ∀ rj0, (j, rj0) ∈ P → rj0.final_source ≠ e0.final_source →
            p.2 ≤ s ∨ t ≤ p.1) := by
        intro p hp
        refine ⟨divideSweep_lt _ _ _ _ hp, divideSweep_start_ge _ _ _ _ hp, ?_⟩
        intro j s t hjs rj0 hrj0 hrne
        have hjsE : (j, s, t) ∈ ei.overlap_info_processed := by
          rw [hf4]
          exact hjs
        obtain ⟨rjT, hrjT, w1, w2, _, _, _⟩ := hInit j rj0 hrj0
        have hgj : getRow T j = some rjT := getRow_eq_of_mem hnT hrjT
        have hlne : rjT.final_source ≠ ei.final_source := by
          rw [w2, hf2]
          exact hrne
        have hseg := c13 hnc2 j s t hjsE rjT hgj hlne
        have hsort := divideSweep_avoid
          (List.insertionSort lexLE (processRefs T i ei.overlap_info_processed []).2.1)
          e2.tmin e2.tmax (sorted_fst_insertionSort _) p hp (s, t)
          ((List.mem_insertionSort lexLE).mpr hseg)
        exact hsort
      refine ⟨⟨by rw [setRow_map_fst]; exact a1, ?_, ?_⟩, ?_, hgT2⟩
      · -- initial rows
        intro j r0 hj
        by_cases hji : j = i
        · rw [hji] at hj ⊢
          obtain rfl := hP_unique r0 hj
          have hgT2i : getRow (appendPieces (processRefs T i ei.overlap_info_processed []).1 e2
              (divide_labels (e2.tmin, e2.tmax)
                (processRefs T i ei.overlap_info_processed []).2.1)) i = some e2 :=
            a3 i e2 c2
          refine ⟨{ e2 with to_delete := true }, ?_, ?_, ?_, ?_, ?_, ?_⟩
          · apply mem_of_getRow
            rw [getRow_setRow_self, hgT2i]
            rfl
          · rw [c3, hf1]
          · rw [c4, hf2]
          · rw [c5, hf3]
          · rw [c6, hf4]
          · intro hfd
            cases hfd
        · obtain ⟨r, hrT, q1, q2, q3, q4, q5⟩ := hInit j r0 hj
          refine ⟨r, ?_, q1, q2, q3, q4, q5⟩
          apply mem_of_getRow
          exact hgT2 j r hji (getRow_eq_of_mem hnT hrT)
      · -- fresh rows
        intro k r hk hkP
        have hki : k ≠ i := fun hc => hkP (hc ▸ hiP)
        have hkT2 : (k, r) ∈ appendPieces (processRefs T i ei.overlap_info_processed []).1 e2
            (divide_labels (e2.tmin, e2.tmax)
              (processRefs T i ei.overlap_info_processed []).2.1) :=
          (mem_setRow_ne _ hki).mp hk
        rcases a4 (k, r) hkT2 with hold | ⟨_, p, hpmem, hpeq⟩
        · exact hNew k r ((hback k r hki).mp hold) hkP
        · obtain ⟨hlt, hge, havoid⟩ := hpiece_src p hpmem
          have hreq : r = { e2 with tmin := p.1, tmax := p.2 } := hpeq
          subst hreq
          refine ⟨he2del, hlt, i, e0, he0, ?_, ?_, ?_, ?_⟩
          · rw [c3, hf1]
          · rw [c4, hf2]
          · intro hwf
            constructor
            · calc e0.tmin = ei.tmin := hbounds.1.symm
                _ ≤ e2.tmin := c8
                _ ≤ p.1 := hge
            · apply divideSweep_end_le _ _ _ e0.tmax _ _ p hpmem
              · calc e2.tmax ≤ ei.tmax := c9
                  _ = e0.tmax := hbounds.2
              · intro x hx
                rcases c12 x ((List.mem_insertionSort lexLE).mp hx) with hemp | ⟨j, hj⟩
                · cases hemp
                · refine hwf i e0 he0 j x.1 x.2 ?_
                  rw [← hf4]
                  exact hj
          · intro j s t hjs rj0 hrj0 hrne
            exact havoid j s t hjs rj0 hrj0 hrne
      · -- the evaluated row is marked
        intro r0 hr0 _
        refine ⟨{ e2 with to_delete := true }, ?_, rfl⟩
        rw [getRow_setRow_self,
          a3 i e2 c2]
        rfl

theorem scan_fold (P : Table) (hnP : (P.map Prod.fst).Nodup) :
    ∀ (l : List Nat) (T : Table),
      ScanInv P T → l.Nodup → (∀ j ∈ l, j ∈ P.map Prod.fst) →
      (∀ j ∈ l, ∀ r, (j, r) ∈ T → r.to_delete = false) →
      ScanInv P (l.foldl processRow T) ∧
      (∀ j ∈ l, ∀ r0, (j, r0) ∈ P → r0.overlapping = true →
        ∃ r, getRow (l.foldl processRow T) j = some r ∧ r.to_delete = true) ∧
      (∀ k rk, k ∉ l → getRow T k = some rk →
        getRow (l.foldl processRow T) k = some rk) := by
  intro l
  induction l with
  | nil =>
      intro T hInv _ _ _
      exact ⟨hInv, fun j hj => absurd hj (List.not_mem_nil j), fun k rk _ h => h⟩
  | cons a l ihl =>
      intro T hInv hnd hmem hdel
      have hnd2 := List.nodup_cons.mp hnd
      obtain ⟨s1, s2, s3⟩ := processRow_step P T a hnP hInv
        (hmem a (List.mem_cons_self _ _)) (hdel a (List.mem_cons_self _ _))
      rw [List.foldl_cons]
      have hdel2 : ∀ j ∈ l, ∀ r, (j, r) ∈ processRow T a → r.to_delete = false := by
        intro j hj r hr
        have hji : j ≠ a := fun hc => hnd2.1 (hc ▸ hj)
        obtain ⟨rj0, hrj0⟩ : ∃ r0, (j, r0) ∈ P := by
          rcases List.mem_map.mp (hmem j (List.mem_cons_of_mem _ hj)) with ⟨y, hy, hyi⟩
          exact ⟨y.2, by rw [show (j, y.2) = y from Prod.ext hyi.symm rfl]; exact hy⟩
        obtain ⟨rT, hrT, _, _, _, _, _⟩ := hInv.2.1 j rj0 hrj0
        have hg1 : getRow T j = some rT := getRow_eq_of_mem hInv.1 hrT
        have hg2 := s3 j rT hji hg1
        have hg3 : getRow (processRow T a) j = some r := getRow_eq_of_mem s1.1 hr
        rw [hg2] at hg3
        have hid : rT = r := (Option.some.injEq _ _).mp hg3
        rw [← hid]
        exact hdel j (List.mem_cons_of_mem _ hj) rT hrT
      obtain ⟨f1, f2, f3⟩ := ihl (processRow T a) s1 hnd2.2
        (fun j hj => hmem j (List.mem_cons_of_mem _ hj)) hdel2
      refine ⟨f1, ?_, ?_⟩
      · intro j hj r0 hr0 hov
        rcases List.mem_cons.mp hj with rfl | hj2
        · obtain ⟨r, hgr, hrdel⟩ := s2 r0 hr0 hov
          exact ⟨r, f3 j r hnd2.1 hgr, hrdel⟩
        · exact f2 j hj2 r0 hr0 hov
      · intro k rk hk hgk
        have hka : k ≠ a := fun hc => hk (hc ▸ List.mem_cons_self _ _)
        exact f3 k rk (fun hc => hk (List.mem_cons_of_mem _ hc)) (s3 k rk hka hgk)

/-- Reduce the `to_delete` reset to membership. -/
theorem mem_reset_iff (df0 : Table) (i : Nat) (r : Row) :
    (i, r) ∈ df0.map (fun e => (e.1, { e.2 with to_delete := false })) ↔
      ∃ r0, (i, r0) ∈ df0 ∧ r = { r0 with to_delete := false } := by
  constructor
  · intro h
    rcases List.mem_map.mp h with ⟨y, hy, hye⟩
    refine ⟨y.2, ?_, ?_⟩
    · rw [show (i, y.2) = y from Prod.ext (congrArg Prod.fst hye).symm rfl]
      exact hy
    · exact (congrArg Prod.snd hye).symm
  · rintro ⟨r0, h0, rfl⟩
    exact List.mem_map.mpr ⟨(i, r0), h0, rfl⟩

theorem reset_map_fst (df0 : Table) :
    (df0.map (fun e => (e.1, { e.2 with to_delete := false }))).map Prod.fst =
      df0.map Prod.fst := by
  rw [List.map_map]
  exact List.map_congr_left (fun a _ => rfl)

theorem filterScan_spec (df0 : Table) (hnd : (df0.map Prod.fst).Nodup) :
    ScanInv (df0.map (fun e => (e.1, { e.2 with to_delete := false })))
      (filterScan df0) ∧
    (∀ j r0, (j, r0) ∈ df0.map (fun e => (e.1, { e.2 with to_delete := false })) →
      r0.overlapping = true →
      ∃ r, getRow (filterScan df0) j = some r ∧ r.to_delete = true) := by
  set P := df0.map (fun e => (e.1, { e.2 with to_delete := false })) with hP
  have hnP : (P.map Prod.fst).Nodup := by
    rw [hP, reset_map_fst]
    exact hnd
  have hInv0 : ScanInv P P := by
    refine ⟨hnP, ?_, ?_⟩
    · intro i r0 h
      exact ⟨r0, h, rfl, rfl, rfl, rfl, fun _ => ⟨rfl, rfl⟩⟩
    · intro k r hk hkP
      exact absurd (List.mem_map.mpr ⟨(k, r), hk, rfl⟩) hkP
  have hdel0 : ∀ j ∈ P.map Prod.fst, ∀ r, (j, r) ∈ P → r.to_delete = false := by
    intro j _ r hr
    rcases (mem_reset_iff df0 j r).mp hr with ⟨r0, _, rfl⟩
    rfl
  have hscan : filterScan df0 = (P.map Prod.fst).foldl processRow P := rfl
  obtain ⟨g1, g2, _⟩ := scan_fold P hnP (P.map Prod.fst) P hInv0 hnP
    (fun j hj => hj) hdel0
  rw [hscan]
  refine ⟨g1, ?_⟩
  intro j r0 hj hov
  exact g2 j (List.mem_map.mpr ⟨(j, r0), hj, rfl⟩) r0 hj hov

/-- Unpack membership in the compacted, reindexed output. -/
theorem mem_filter_overlapping {df0 : Table} {p : Nat × Row}
    (hp : p ∈ filter_overlapping df0) :
    ∃ k, (k, p.2) ∈ filterScan df0 ∧ p.2.to_delete = false := by
  have h1 : p.2 ∈ ((filterScan df0).filter (fun e => ¬ e.2.to_delete)).map
      (fun e => e.2) := by
    have := List.enum_map_snd (((filterScan df0).filter
      (fun e => ¬ e.2.to_delete)).map (fun e => e.2))
    rw [← this]
    exact List.mem_map.mpr ⟨p, hp, rfl⟩
  rcases List.mem_map.mp h1 with ⟨y, hy, hye⟩
  have hy2 := List.mem_filter.mp hy
  refine ⟨y.1, ?_, ?_⟩
  · rw [← hye, show (y.1, y.2) = y from rfl]
    exact hy2.1
  · rw [← hye]
    simpa using hy2.2

/-- Every survivor of the scan is either an untouched initial row with a
null overlap field, or a split piece: strictly ordered, tied to a source
row of `df0` whose parent and label it copies, within the source's
original bounds (when recorded excise ranges start within their rows),
and clear of every different-class sub-range recorded in the source's
refs. -/
theorem survivor_spec (df0 : Table) (hnd : (df0.map Prod.fst).Nodup)
    {r : Row} {k : Nat} (hmem : (k, r) ∈ filterScan df0)
    (hdel : r.to_delete = false) :
    ∃ m r0, (m, r0) ∈ df0 ∧ r.parent_file = r0.parent_file ∧
      r.final_source = r0.final_source ∧
      ((r0.overlapping = false ∧ r.tmin = r0.tmin ∧ r.tmax = r0.tmax) ∨
        (r.tmin < r.tmax ∧
          ((∀ i2 q0, (i2, q0) ∈ df0 → ∀ j s t,
              (j, s, t) ∈ q0.overlap_info_processed → s ≤ q0.tmax) →
            r0.tmin ≤ r.tmin ∧ r.tmax ≤ r0.tmax) ∧
          (∀ j s t, (j, s, t) ∈ r0.overlap_info_processed →
            ∀ rj0, (j, rj0) ∈ df0 → rj0.final_source ≠ r0.final_source →
            r.tmax ≤ s ∨ t ≤ r.tmin))) := by
  obtain ⟨⟨hnT, hInit, hNew⟩, hmark⟩ := filterScan_spec df0 hnd
  by_cases hkP : k ∈ (df0.map (fun e => (e.1, { e.2 with to_delete := false }))).map
      Prod.fst
  · obtain ⟨r0P, hr0P⟩ : ∃ r0, (k, r0) ∈ df0.map
        (fun e => (e.1, { e.2 with to_delete := false })) := by
      rcases List.mem_map.mp hkP with ⟨y, hy, hyi⟩
      exact ⟨y.2, by rw [show (k, y.2) = y from Prod.ext hyi.symm rfl]; exact hy⟩
    obtain ⟨rr, hrr, q1, q2, q3, q4, q5⟩ := hInit k r0P hr0P
    have hid : rr = r := by
      have hg1 := getRow_eq_of_mem hnT hrr
      have hg2 := getRow_eq_of_mem hnT hmem
      rw [hg2] at hg1
      exact ((Option.some.injEq _ _).mp hg1).symm
    rw [hid] at q1 q2 q3 q4 q5
    have hov : r0P.overlapping = false := by
      rcases Bool.eq_false_or_eq_true r0P.overlapping with h | h
      case inr => exact h
      exfalso
      obtain ⟨rm, hgm, hmdel⟩ := hmark k r0P hr0P h
      have hg2 := getRow_eq_of_mem hnT hmem
      rw [hgm] at hg2
      have : rm = r := (Option.some.injEq _ _).mp hg2
      rw [this] at hmdel
      rw [hdel] at hmdel
      cases hmdel
    rcases (mem_reset_iff df0 k r0P).mp hr0P with ⟨r0, h0mem, rfl⟩
    obtain ⟨hb1, hb2⟩ := q5 hdel
    exact ⟨k, r0, h0mem, q1, q2, Or.inl ⟨hov, hb1, hb2⟩⟩
  · obtain ⟨ha, hb, m, r0P, hr0P, w1, w2, w3, w4⟩ := hNew k r hmem hkP
    rcases (mem_reset_iff df0 m r0P).mp hr0P with ⟨r0, h0mem, rfl⟩
    refine ⟨m, r0, h0mem, w1, w2, Or.inr ⟨hb, ?_, ?_⟩⟩
    · intro hwf
      apply w3
      intro i2 q0 hq0 j s t hjs
      rcases (mem_reset_iff df0 i2 q0).mp hq0 with ⟨q0x, hq0x, rfl⟩
      exact hwf i2 q0x hq0x j s t hjs
    · intro j s t hjs rj0 hrj0 hne
      exact w4 j s t hjs { rj0 with to_delete := false }
        ((mem_reset_iff df0 j _).mpr ⟨rj0, hrj0, rfl⟩) hne

/-! ## Strictness of surviving bounds (claim C7) -/

/-- A degenerate input row with a null overlap field: the resolver passes
it through untouched. -/
def rowC7bad : Row :=
  { parent_file := "h", tmin := 5, tmax := 5, final_source := "x",
    overlapping := false, overlap_info_processed := [], to_delete := false }

/-- The one-row table around `rowC7bad`. -/
def tableC7bad : Table := [(0, rowC7bad)]

/-- C7, counterexample: a zero-length input interval with no overlap
info survives `filter_overlapping` unchanged, so not every surviving
interval satisfies `t_min < t_max`. -/
theorem C7_counterexample :
    filter_overlapping tableC7bad = [(0, rowC7bad)] ∧
    ¬ rowC7bad.tmin < rowC7bad.tmax := by
  constructor
  · decide
  · decide

/-- C7, amended: provided the input table has unique row indices and
every input interval satisfies `t_min < t_max` strictly, every interval
surviving `filter_overlapping` satisfies `t_min < t_max` strictly; and
unconditionally the splitter `divide_labels` only emits pieces
`[start, stop]` with `start < stop`. -/
theorem C7_amended_strict_bounds (df0 : Table)
    (hnd : (df0.map Prod.fst).Nodup)
    (hpos : ∀ i r, (i, r) ∈ df0 → r.tmin < r.tmax) :
    (∀ p ∈ filter_overlapping df0, p.2.tmin < p.2.tmax) ∧
    (∀ (event : ℚ × ℚ) (segments : List (ℚ × ℚ)),
      ∀ q ∈ divide_labels event segments, q.1 < q.2) := by
  constructor
  · intro p hp
    obtain ⟨k, hmem, hdel⟩ := mem_filter_overlapping hp
    obtain ⟨m, r0, h0mem, _, _, hcase⟩ := survivor_spec df0 hnd hmem hdel
    rcases hcase with ⟨_, hb1, hb2⟩ | ⟨hlt, _, _⟩
    · rw [hb1, hb2]
      exact hpos m r0 h0mem
    · exact hlt
  · intro event segments q hq
    exact divideSweep_lt _ _ _ _ hq

/-- A well-formed one-row table for the C7 witness. -/
def rowC7w : Row :=
  { parent_file := "w", tmin := 1, tmax := 3, final_source := "x",
    overlapping := false, overlap_info_processed := [], to_delete := false }

/-- The one-row table around `rowC7w`. -/
def tableC7w : Table := [(0, rowC7w)]

/-- Witness for the amended C7 at a concrete well-formed table. -/
theorem C7_amended_witness : rowC7w.tmin < rowC7w.tmax :=
  (C7_amended_strict_bounds tableC7w (by decide)
    (by
      intro i r h
      rw [show r = rowC7w from congrArg Prod.snd (List.mem_singleton.mp h)]
      decide)).1 (0, rowC7w) (by decide)

/-! ## The cross-label disjointness invariant (claim C1) -/

instance : ∀ a b : ℚ × ℚ, Decidable (strictOverlap a b) := fun a b => by
  unfold strictOverlap
  infer_instance

/-- The upstream contract on the overlap references: whenever two rows of
the same parent file carry different labels and their intervals strictly
overlap, at least one of the two rows has a non-null overlap field and
records the other row with a sub-range covering the intersection. -/
def RefsComplete (df0 : Table) : Prop :=
  ∀ i ri j rj, (i, ri) ∈ df0 → (j, rj) ∈ df0 →
    ri.parent_file = rj.parent_file → ri.final_source ≠ rj.final_source →
    strictOverlap (ri.tmin, ri.tmax) (rj.tmin, rj.tmax) →
    (ri.overlapping = true ∧ ∃ s t, (j, s, t) ∈ ri.overlap_info_processed ∧
      s ≤ max ri.tmin rj.tmin ∧ min ri.tmax rj.tmax ≤ t) ∨
    (rj.overlapping = true ∧ ∃ s t, (i, s, t) ∈ rj.overlap_info_processed ∧
      s ≤ max ri.tmin rj.tmin ∧ min ri.tmax rj.tmax ≤ t)

/-- C1: under unique row indices, sanely recorded excise ranges (each
recorded sub-range starts within its row's interval) and complete overlap
references (`RefsComplete`), no two intervals surviving
`filter_overlapping` that belong to the same parent file and carry
different labels have overlapping `[t_min, t_max)` ranges — every
different-class sub-range recorded in the refs is excised from the
evaluated interval regardless of geometry. -/
theorem C1_no_cross_label_overlap (df0 : Table)
    (hnd : (df0.map Prod.fst).Nodup)
    (hwf : ∀ i r0, (i, r0) ∈ df0 → ∀ j s t,
      (j, s, t) ∈ r0.overlap_info_processed → s ≤ r0.tmax)
    (hcomp : RefsComplete df0) :
    ∀ p1 ∈ filter_overlapping df0, ∀ p2 ∈ filter_overlapping df0,
      p1.2.parent_file = p2.2.parent_file →
      p1.2.final_source ≠ p2.2.final_source →
      ¬ strictOverlap (p1.2.tmin, p1.2.tmax) (p2.2.tmin, p2.2.tmax) := by
  intro p1 hp1 p2 hp2 hpar hlab hov
  have hov2 : max p1.2.tmin p2.2.tmin < min p1.2.tmax p2.2.tmax := hov
  obtain ⟨k1, hm1, hd1⟩ := mem_filter_overlapping hp1
  obtain ⟨k2, hm2, hd2⟩ := mem_filter_overlapping hp2
  obtain ⟨m1, r01, h01, a1, b1, case1⟩ := survivor_spec df0 hnd hm1 hd1
  obtain ⟨m2, r02, h02, a2, b2, case2⟩ := survivor_spec df0 hnd hm2 hd2
  have hb1 : r01.tmin ≤ p1.2.tmin ∧ p1.2.tmax ≤ r01.tmax := by
    rcases case1 with ⟨_, e1, e2⟩ | ⟨_, hg, _⟩
    · exact ⟨le_of_eq e1.symm, le_of_eq e2⟩
    · exact hg hwf
  have hb2 : r02.tmin ≤ p2.2.tmin ∧ p2.2.tmax ≤ r02.tmax := by
    rcases case2 with ⟨_, e1, e2⟩ | ⟨_, hg, _⟩
    · exact ⟨le_of_eq e1.symm, le_of_eq e2⟩
    · exact hg hwf
  have hsov : strictOverlap (r01.tmin, r01.tmax) (r02.tmin, r02.tmax) := by
    show max r01.tmin r02.tmin < min r01.tmax r02.tmax
    calc max r01.tmin r02.tmin ≤ max p1.2.tmin p2.2.tmin :=
          max_le_max hb1.1 hb2.1
      _ < min p1.2.tmax p2.2.tmax := hov2
      _ ≤ min r01.tmax r02.tmax := min_le_min hb1.2 hb2.2
  have hslab : r01.final_source ≠ r02.final_source := by
    rw [← b1, ← b2]
    exact hlab
  have hspar : r01.parent_file = r02.parent_file := by
    rw [← a1, ← a2]
    exact hpar
  rcases hcomp m1 r01 m2 r02 h01 h02 hspar hslab hsov with
    ⟨hrec, s, t, hst, hcov1, hcov2⟩ | ⟨hrec, s, t, hst, hcov1, hcov2⟩
  · rcases case1 with ⟨hfo, _, _⟩ | ⟨_, _, havoid⟩
    · rw [hrec] at hfo
      cases hfo
    · rcases havoid m2 s t hst r02 h02 hslab.symm with hc | hc
      · refine absurd hov2 (not_lt.mpr ?_)
        calc min p1.2.tmax p2.2.tmax ≤ p1.2.tmax := min_le_left _ _
          _ ≤ s := hc
          _ ≤ max r01.tmin r02.tmin := hcov1
          _ ≤ max p1.2.tmin p2.2.tmin := max_le_max hb1.1 hb2.1
      · refine absurd hov2 (not_lt.mpr ?_)
        calc min p1.2.tmax p2.2.tmax ≤ min r01.tmax r02.tmax :=
              min_le_min hb1.2 hb2.2
          _ ≤ t := hcov2
          _ ≤ p1.2.tmin := hc
          _ ≤ max p1.2.tmin p2.2.tmin := le_max_left _ _
  · rcases case2 with ⟨hfo, _, _⟩ | ⟨_, _, havoid⟩
    · rw [hrec] at hfo
      cases hfo
    · rcases havoid m1 s t hst r01 h01 hslab with hc | hc
      · refine absurd hov2 (not_lt.mpr ?_)
        calc min p1.2.tmax p2.2.tmax ≤ p2.2.tmax := min_le_right _ _
          _ ≤ s := hc
          _ ≤ max r01.tmin r02.tmin := hcov1
          _ ≤ max p1.2.tmin p2.2.tmin := max_le_max hb1.1 hb2.1
      · refine absurd hov2 (not_lt.mpr ?_)
        calc min p1.2.tmax p2.2.tmax ≤ min r01.tmax r02.tmax :=
              min_le_min hb1.2 hb2.2
          _ ≤ t := hcov2
          _ ≤ p2.2.tmin := hc
          _ ≤ max p1.2.tmin p2.2.tmin := le_max_right _ _

/-- Two disjoint different-class rows with null overlap fields, for the
C1 witness. -/
def rowC1wA : Row :=
  { parent_file := "v", tmin := 0, tmax := 4, final_source := "x",
    overlapping := false, overlap_info_processed := [], to_delete := false }

/-- Second row of the C1 witness table. -/
def rowC1wB : Row :=
  { parent_file := "v", tmin := 6, tmax := 9, final_source := "y",
    overlapping := false, overlap_info_processed := [], to_delete := false }

/-- The two-row table of the C1 witness. -/
def tableC1w : Table := [(0, rowC1wA), (1, rowC1wB)]

/-- Witness for C1 at a concrete table satisfying all the hypotheses. -/
theorem C1_witness :
    ¬ strictOverlap (rowC1wA.tmin, rowC1wA.tmax) (rowC1wB.tmin, rowC1wB.tmax) :=
  C1_no_cross_label_overlap tableC1w (by decide)
    (by
      intro i r0 h j s t hst
      rcases List.mem_cons.mp h with h2 | h2
      · rw [show r0 = rowC1wA from congrArg Prod.snd h2] at hst
        cases hst
      · rw [show r0 = rowC1wB from
          congrArg Prod.snd (List.mem_singleton.mp h2)] at hst
        cases hst)
    (by
      intro i ri j rj hi hj hpar hlab hovr
      rcases List.mem_cons.mp hi with h1 | h1 <;>
        rcases List.mem_cons.mp hj with h2 | h2
      · rw [show ri = rowC1wA from congrArg Prod.snd h1,
          show rj = rowC1wA from congrArg Prod.snd h2] at hlab
        exact absurd rfl hlab
      · rw [show ri = rowC1wA from congrArg Prod.snd h1,
          show rj = rowC1wB from congrArg Prod.snd (List.mem_singleton.mp h2)] at hovr
        exact absurd hovr (by decide)
      · rw [show ri = rowC1wB from congrArg Prod.snd (List.mem_singleton.mp h1),
          show rj = rowC1wA from congrArg Prod.snd h2] at hovr
        exact absurd hovr (by decide)
      · rw [show ri = rowC1wB from congrArg Prod.snd (List.mem_singleton.mp h1),
          show rj = rowC1wB from
            congrArg Prod.snd (List.mem_singleton.mp h2)] at hlab
        exact absurd rfl hlab)
    (0, rowC1wA) (by decide) (1, rowC1wB) (by decide) rfl (by decide)

/-! ## The same-label case table (claim C6) -/

/-- C6: for a same-label overlapping pair during resolution (both rows
present, distinct): on `STARTS_BEFORE_AND_OVERLAPS` the evaluated row
gets `t_max := o.t_min` and the overlapping row's `t_min` is then
assigned its own post-truncation value — so it is unchanged, the two
intervals meet exactly at the boundary with no remaining overlap — and
the call returns `False` (processing of the remaining refs continues);
`STARTS_AFTER_AND_OVERLAPS` is the symmetric truncation; `IS_CONTAINED`
marks the evaluated row for deletion and returns `True`, which makes
`processRefs` abandon the remaining refs immediately; `CONTAINS` and
`NO_SUPERPOSITION` mutate nothing. -/
theorem C6_handle_superposition_cases (df : Table) (i o : Nat) (e ob : Row)
    (hn : (df.map Prod.fst).Nodup) (hi : getRow df i = some e)
    (ho : getRow df o = some ob) (hio : i ≠ o) :
    ((handle_superposition df i o .STARTS_BEFORE_AND_OVERLAPS).2 = false ∧
      getRow (handle_superposition df i o .STARTS_BEFORE_AND_OVERLAPS).1 i =
        some { e with tmax := ob.tmin } ∧
      getRow (handle_superposition df i o .STARTS_BEFORE_AND_OVERLAPS).1 o =
        some ob ∧
      ¬ strictOverlap (e.tmin, ob.tmin) (ob.tmin, ob.tmax)) ∧
    ((handle_superposition df i o .STARTS_AFTER_AND_OVERLAPS).2 = false ∧
      getRow (handle_superposition df i o .STARTS_AFTER_AND_OVERLAPS).1 i =
        some { e with tmin := ob.tmax } ∧
      getRow (handle_superposition df i o .STARTS_AFTER_AND_OVERLAPS).1 o =
        some ob ∧
      ¬ strictOverlap (ob.tmax, e.tmax) (ob.tmin, ob.tmax)) ∧
    ((handle_superposition df i o .IS_CONTAINED).2 = true ∧
      getRow (handle_superposition df i o .IS_CONTAINED).1 i =
        some { e with to_delete := true } ∧
      getRow (handle_superposition df i o .IS_CONTAINED).1 o = some ob ∧
      (∀ s t rest segs, e.final_source = ob.final_source →
        check_superposition (e.tmin, e.tmax) (ob.tmin, ob.tmax) = .IS_CONTAINED →
        processRefs df i ((o, s, t) :: rest) segs =
          (setRow df i (fun r => { r with to_delete := true }), segs, true))) ∧
    handle_superposition df i o .CONTAINS = (df, false) ∧
    handle_superposition df i o .NO_SUPERPOSITION = (df, false) := by
  have hoi : o ≠ i := fun hc => hio hc.symm
  have hlive : liveIdx df o = true := by
    rw [liveIdx_eq_isSome, ho]
    rfl
  refine ⟨?_, ?_, ?_, rfl, rfl⟩
  · rw [handle_SB hn hi ho hio]
    refine ⟨rfl, ?_, ?_, ?_⟩
    · rw [getRow_setRow_self, hi]
      rfl
    · rw [getRow_setRow_ne _ hoi]
      exact ho
    · exact not_lt.mpr ((min_le_left _ _).trans (le_max_right _ _))
  · rw [handle_SA hn hi ho hio]
    refine ⟨rfl, ?_, ?_, ?_⟩
    · rw [getRow_setRow_self, hi]
      rfl
    · rw [getRow_setRow_ne _ hoi]
      exact ho
    · exact not_lt.mpr ((min_le_right _ _).trans (le_max_left _ _))
  · refine ⟨rfl, ?_, ?_, ?_⟩
    · rw [show (handle_superposition df i o .IS_CONTAINED).1 =
        setRow df i (fun r => { r with to_delete := true }) from rfl]
      rw [getRow_setRow_self, hi]
      rfl
    · rw [show (handle_superposition df i o .IS_CONTAINED).1 =
        setRow df i (fun r => { r with to_delete := true }) from rfl]
      rw [getRow_setRow_ne _ hoi]
      exact ho
    · intro s t rest segs hlabeq hsp
      simp only [processRefs]
      rw [getRowD_eq hi, getRowD_eq ho, if_neg (not_not_intro hlive),
        if_neg (not_ne_iff.mpr hlabeq), hsp]
      rfl

/-- A same-label pair where the evaluated interval is strictly contained
in the other, for the C6 witness. -/
def rowC6e : Row :=
  { parent_file := "c", tmin := 2, tmax := 3, final_source := "x",
    overlapping := true, overlap_info_processed := [(1, 2, 3)],
    to_delete := false }

/-- The containing row of the C6 witness. -/
def rowC6o : Row :=
  { parent_file := "c", tmin := 1, tmax := 5, final_source := "x",
    overlapping := true, overlap_info_processed := [(0, 2, 3)],
    to_delete := false }

/-- The two-row table of the C6 witness. -/
def tableC6 : Table := [(0, rowC6e), (1, rowC6o)]

/-- Witness for C6: on `IS_CONTAINED` the call marks the evaluated row
and returns `True`. -/
theorem C6_witness :
    (handle_superposition tableC6 0 1 .IS_CONTAINED).2 = true :=
  ((C6_handle_superposition_cases tableC6 0 1 rowC6e rowC6o (by decide)
    (by decide) (by decide) (by decide)).2.2.1).1
